import Mathlib

/-!
# Verification of the vibeboard game-server core

Shallow embedding of the server-authoritative core of the vibeboard
repository (Go), together with proofs and refutations of the specified
properties.

Embedding conventions:
* `uuid.UUID` values are modelled as `Nat`; the zero UUID (`uuid.Nil`,
  the value of an unset `uuid.UUID` field in Go) is `0`.
* Go maps keyed by UUID are modelled as total functions `Nat → List _`
  returning `[]` on absent keys, matching Go's zero-value lookup of a
  `map[uuid.UUID][]DominoTile`.
* The JSON (un)marshalling steps of the engine entry points operate on
  typed values here, so the decode/encode error paths of the Go code
  cannot fire; functions that can fail only there are total, while
  functions with genuine panic sites (out-of-range index, nil pointer
  dereference) return `Option`, with `none` standing for the panic.
* Randomness (the `rand.Shuffle` in `DominoEngine.Initialize`) is
  modelled by passing the shuffled tile list as an explicit argument.
-/

/-! ## Domino engine (backend/internal/game/dominoes.go) -/

/-- `DominoTile` from dominoes.go: a tile with `Left`/`Right` pip counts
(Go `int`, hence `Int`). -/
structure DominoTile where
  left : Int
  right : Int
deriving DecidableEq, Repr

/-- `DominoMove` from dominoes.go: a tile, a side ("left"/"right"), and a
pass flag. -/
structure DominoMove where
  tile : DominoTile
  side : String
  pass : Bool
deriving DecidableEq, Repr

/-- `DominoGameState` from dominoes.go.  `PlayerHands` is a Go map from
UUID to tile slice, modelled as a total function defaulting to `[]`. -/
structure DominoState where
  hands : Nat → List DominoTile
  board : List DominoTile
  boneyard : List DominoTile
  currentTurn : Nat
  player1 : Nat
  player2 : Nat
  gameEnded : Bool
  winner : Option Nat

/-- The zero UUID `uuid.Nil`, the value of an unset `uuid.UUID` field. -/
def uuidNil : Nat := 0

/-- Error cases returned by the domino engine, one constructor per
`errors.New`/`fmt.Errorf` site in dominoes.go. -/
inductive DominoErr where
  | notPlayersTurn
  | gameAlreadyEnded
  | mustPlayIfPossible
  | tileNotHeld
  | leftEndMismatch
  | rightEndMismatch
  | invalidSide
deriving DecidableEq, Repr

/-- `generateDominoSet`: the 28 tiles `{(i,j) : 0 ≤ i ≤ j ≤ 6}` in the
order the nested loops produce them. -/
def generateDominoSet : List DominoTile :=
  (List.range 7).flatMap (fun i =>
    (List.range (7 - i)).map (fun k => ⟨(i : Int), (i : Int) + (k : Int)⟩))

/-- Pointwise update of a hands map (`state.PlayerHands[k] = v`). -/
def setHand (h : Nat → List DominoTile) (k : Nat) (v : List DominoTile) :
    Nat → List DominoTile :=
  fun x => if x = k then v else h x

/-- The dealing loop of `DominoEngine.Initialize`: for `i = 0..6` append
`shuffled[i]` to player 1's hand and `shuffled[i+7]` to player 2's hand. -/
def dealHands (shuffled : List DominoTile) (p1 p2 : Nat) :
    Nat → List DominoTile :=
  (List.range 7).foldl
    (fun h i =>
      let h1 := setHand h p1 (h p1 ++ [shuffled.getD i ⟨0, 0⟩])
      setHand h1 p2 (h1 p2 ++ [shuffled.getD (i + 7) ⟨0, 0⟩]))
    (fun _ => [])

/-- `getHighestTileValue`: maximum over the hand of pip sum, plus 100 for
doubles, starting from `-1`. -/
def getHighestTileValue (hand : List DominoTile) : Int :=
  hand.foldl
    (fun maxValue tile =>
      let value := tile.left + tile.right
      let value := if tile.left = tile.right then value + 100 else value
      if value > maxValue then value else maxValue)
    (-1)

/-- `determineStartingPlayer`: player 1 starts iff their highest tile value
is ≥ player 2's. -/
def determineStartingPlayer (s : DominoState) : Nat :=
  let p1Max := getHighestTileValue (s.hands s.player1)
  let p2Max := getHighestTileValue (s.hands s.player2)
  if p1Max ≥ p2Max then s.player1 else s.player2

/-- `DominoEngine.Initialize`, parameterised by the shuffled tile list.
Note that the Go code never assigns `Player1ID`/`Player2ID`, so both are
`uuid.Nil` (here `0`) when the hands are dealt and the starter chosen. -/
def dominoInitState (shuffled : List DominoTile) : DominoState :=
  let base : DominoState :=
    { hands := dealHands shuffled uuidNil uuidNil
      board := []
      boneyard := shuffled.drop 14
      currentTurn := 0
      player1 := uuidNil
      player2 := uuidNil
      gameEnded := false
      winner := none }
  { base with currentTurn := determineStartingPlayer base }

/-- Tile equality modulo orientation, as tested by the hand-search loops in
`ValidateMove` and `ApplyMove`. -/
def tileMatches (t tile : DominoTile) : Bool :=
  (t.left = tile.left ∧ t.right = tile.right) ∨
    (t.left = tile.right ∧ t.right = tile.left)

/-- The hand-membership test of `ValidateMove`. -/
def hasTile (hand : List DominoTile) (tile : DominoTile) : Bool :=
  hand.any (fun t => tileMatches t tile)

/-- `validateTilePlacement`: the tile must touch the exposed pip of the
declared side.  Only ever called with a non-empty board (the `headD`
default is unreachable). -/
def validateTilePlacement (board : List DominoTile) (tile : DominoTile)
    (side : String) : Option DominoErr :=
  if side = "left" then
    let leftEnd := (board.headD ⟨0, 0⟩).left
    if tile.left ≠ leftEnd ∧ tile.right ≠ leftEnd then
      some .leftEndMismatch
    else none
  else if side = "right" then
    let rightEnd := (board.getLastD ⟨0, 0⟩).right
    if tile.left ≠ rightEnd ∧ tile.right ≠ rightEnd then
      some .rightEndMismatch
    else none
  else some .invalidSide

/-- `canPlayerPlay`: with an empty board any tile plays; otherwise some
held tile must carry the pip exposed at either end. -/
def canPlayerPlay (s : DominoState) (p : Nat) : Bool :=
  match s.board with
  | [] => true
  | b0 :: _ =>
    let leftEnd := b0.left
    let rightEnd := (s.board.getLastD b0).right
    (s.hands p).any (fun tile =>
      tile.left = leftEnd ∨ tile.right = leftEnd ∨
        tile.left = rightEnd ∨ tile.right = rightEnd)

/-- `DominoEngine.ValidateMove` on decoded values. -/
def dominoValidateMove (s : DominoState) (m : DominoMove) (p : Nat) :
    Option DominoErr :=
  if s.currentTurn ≠ p then some .notPlayersTurn
  else if s.gameEnded then some .gameAlreadyEnded
  else if m.pass then
    if canPlayerPlay s p then some .mustPlayIfPossible else none
  else if ¬ hasTile (s.hands p) m.tile then some .tileNotHeld
  else if s.board.length = 0 then none
  else validateTilePlacement s.board m.tile m.side

/-- `getOtherPlayer`. -/
def getOtherPlayer (s : DominoState) (p : Nat) : Nat :=
  if p = s.player1 then s.player2 else s.player1

/-- `calculateHandScore`: pip sum of a hand. -/
def calculateHandScore (hand : List DominoTile) : Int :=
  hand.foldl (fun score tile => score + tile.left + tile.right) 0

/-- `determineWinnerByScore`: lower remaining pip sum wins, tie is a draw. -/
def determineWinnerByScore (s : DominoState) : Option Nat :=
  let p1Score := calculateHandScore (s.hands s.player1)
  let p2Score := calculateHandScore (s.hands s.player2)
  if p1Score < p2Score then some s.player1
  else if p2Score < p1Score then some s.player2
  else none

/-- The removal loop of `ApplyMove`: delete the first hand tile matching
the played tile (in either orientation); no-op if none matches. -/
def removeTile : List DominoTile → DominoTile → List DominoTile
  | [], _ => []
  | t :: rest, tile =>
    if tileMatches t tile then rest else t :: removeTile rest tile

/-- `placeTileOnBoard`: orient the tile so the matching pip touches the
board and prepend (left) or append (right).  Only called with a non-empty
board. -/
def placeTileOnBoard (board : List DominoTile) (tile : DominoTile)
    (side : String) : List DominoTile :=
  if side = "left" then
    let leftEnd := (board.headD ⟨0, 0⟩).left
    if tile.right = leftEnd then tile :: board
    else ⟨tile.right, tile.left⟩ :: board
  else
    let rightEnd := (board.getLastD ⟨0, 0⟩).right
    if tile.left = rightEnd then board ++ [tile]
    else board ++ [⟨tile.right, tile.left⟩]

/-- `DominoEngine.ApplyMove` on decoded values.  The Go function can only
fail in JSON (un)marshalling, which the typed embedding rules out, so the
result is wrapped in `some` on every branch. -/
def dominoApplyMove (s : DominoState) (m : DominoMove) (p : Nat) :
    Option DominoState :=
  if m.pass then
    let s1 := { s with currentTurn := getOtherPlayer s p }
    if ¬ canPlayerPlay s1 s1.currentTurn then
      some { s1 with gameEnded := true, winner := determineWinnerByScore s1 }
    else some s1
  else
    let hand := s.hands p
    let s1 := { s with hands := setHand s.hands p (removeTile hand m.tile) }
    let s2 :=
      if s1.board.length = 0 then { s1 with board := s1.board ++ [m.tile] }
      else { s1 with board := placeTileOnBoard s1.board m.tile m.side }
    if (s2.hands p).length = 0 then
      some { s2 with gameEnded := true, winner := some p }
    else some { s2 with currentTurn := getOtherPlayer s2 p }

/-- `DominoEngine.GetPossibleMoves` on decoded values. -/
def dominoGetPossibleMoves (s : DominoState) (p : Nat) : List DominoMove :=
  let hand := s.hands p
  if s.board.length = 0 then
    hand.map (fun tile => { tile := tile, side := "left", pass := false })
  else
    let placements := hand.flatMap (fun tile =>
      (if (validateTilePlacement s.board tile "left").isNone then
        [({ tile := tile, side := "left", pass := false } : DominoMove)]
      else []) ++
      (if (validateTilePlacement s.board tile "right").isNone then
        [({ tile := tile, side := "right", pass := false } : DominoMove)]
      else []))
    if placements.length = 0 then
      [{ tile := ⟨0, 0⟩, side := "", pass := true }]
    else placements

/-- The tile-count expression of the conservation invariant at a state. -/
def dominoTileCount (s : DominoState) : Nat :=
  (s.hands s.player1).length + (s.hands s.player2).length +
    s.board.length + s.boneyard.length

/-! ## Chess engine (listed in backend/README.md, package game) -/

/-- `ChessPiece`: kind and colour as strings, as in the Go struct. -/
structure ChessPiece where
  type : String
  color : String
deriving DecidableEq, Repr

/-- `ChessPosition`: row/col as Go `int`. -/
structure ChessPos where
  row : Int
  col : Int
deriving DecidableEq, Repr

/-- `ChessMove`: endpoints plus optional promotion/castling tags (empty
string = absent, the Go zero value). -/
structure ChessMove where
  fromPos : ChessPos
  toPos : ChessPos
  promotion : String
  castling : String
deriving DecidableEq, Repr

/-- Index into the 8×8 board array. -/
abbrev BoardIx := Fin 8 × Fin 8

/-- The Go `[8][8]*ChessPiece` board: a cell map with `none` for nil. -/
abbrev ChessBoard := BoardIx → Option ChessPiece

/-- `ChessGameState` from the chess engine. -/
structure ChessState where
  board : ChessBoard
  currentTurn : String
  player1 : Nat
  player2 : Nat
  whitePlayer : Nat
  blackPlayer : Nat
  gameEnded : Bool
  winner : Option Nat
  check : Bool
  checkmate : Bool
  stalemate : Bool
  whiteKingSideCastle : Bool
  whiteQueenSideCastle : Bool
  blackKingSideCastle : Bool
  blackQueenSideCastle : Bool
  enPassantTarget : Option ChessPos
  moveCount : Int

/-- Go's local `abs` helper on `int`. -/
def intAbs (x : Int) : Int := if x < 0 then -x else x

/-- `isValidPosition`. -/
def isValidPosition (pos : ChessPos) : Bool :=
  0 ≤ pos.row ∧ pos.row < 8 ∧ 0 ≤ pos.col ∧ pos.col < 8

/-- Convert an in-range position to a board index. -/
def ixOf? (pos : ChessPos) : Option BoardIx :=
  if h : 0 ≤ pos.row ∧ pos.row < 8 ∧ 0 ≤ pos.col ∧ pos.col < 8 then
    some (⟨pos.row.toNat, by omega⟩, ⟨pos.col.toNat, by omega⟩)
  else none

/-- `state.Board[pos.Row][pos.Col]` where every Go call site has already
established the bounds; out-of-range reads answer `none` here. -/
def getCell (b : ChessBoard) (pos : ChessPos) : Option ChessPiece :=
  match ixOf? pos with
  | some ix => b ix
  | none => none

/-- Error cases of the chess engine, one constructor per `errors.New`
site. -/
inductive ChessErr where
  | notPlayersTurn
  | gameAlreadyEnded
  | invalidPosition
  | noPieceAtSource
  | cannotMoveOpponentPiece
  | cannotCaptureOwnPiece
  | invalidPawnMove
  | rookNotStraightLine
  | invalidKnightMove
  | bishopNotDiagonal
  | invalidQueenMove
  | invalidKingMove
  | pathBlocked
  | unknownPieceType
deriving DecidableEq, Repr

/-- `getPlayerColor`: everyone other than `WhitePlayer` is black. -/
def getPlayerColor (s : ChessState) (p : Nat) : String :=
  if p = s.whitePlayer then "white" else "black"

/-- `validatePawnMove`.  Both endpoints have been bounds-checked by
`validateChessMove` before this is reached. -/
def validatePawnMove (s : ChessState) (m : ChessMove) (color : String) :
    Option ChessErr :=
  let direction : Int := if color = "black" then -1 else 1
  let startRow : Int := if color = "black" then 1 else 6
  let rowDiff := m.toPos.row - m.fromPos.row
  let colDiff := m.toPos.col - m.fromPos.col
  if colDiff = 0 ∧ rowDiff = direction ∧ getCell s.board m.toPos = none then
    none
  else if colDiff = 0 ∧ rowDiff = 2 * direction ∧ m.fromPos.row = startRow ∧
      getCell s.board m.toPos = none ∧
      getCell s.board ⟨m.fromPos.row + direction, m.fromPos.col⟩ = none then
    none
  else if intAbs colDiff = 1 ∧ rowDiff = direction ∧
      (getCell s.board m.toPos).any (fun target => target.color ≠ color) = true then
    none
  else if intAbs colDiff = 1 ∧ rowDiff = direction ∧
      s.enPassantTarget.any
        (fun t => m.toPos.row = t.row ∧ m.toPos.col = t.col) = true then
    none
  else some .invalidPawnMove

/-- `checkPathClear`.  The Go loop steps from `from` towards `to` until it
reaches `to`; on the aligned endpoints it is invoked with, that visits
exactly the strictly-intermediate cells `from + i·dir`,
`i = 1 .. steps-1`. -/
def checkPathClear (b : ChessBoard) (f t : ChessPos) : Option ChessErr :=
  let rowDir : Int := if t.row > f.row then 1 else if t.row < f.row then -1 else 0
  let colDir : Int := if t.col > f.col then 1 else if t.col < f.col then -1 else 0
  let steps := max (t.row - f.row).natAbs (t.col - f.col).natAbs
  if ((List.range steps).drop 1).all (fun i =>
      (getCell b ⟨f.row + rowDir * (i : Int), f.col + colDir * (i : Int)⟩).isNone) then
    none
  else some .pathBlocked

/-- `validateRookMove`. -/
def validateRookMove (s : ChessState) (m : ChessMove) : Option ChessErr :=
  if m.fromPos.row ≠ m.toPos.row ∧ m.fromPos.col ≠ m.toPos.col then
    some .rookNotStraightLine
  else checkPathClear s.board m.fromPos m.toPos

/-- `validateKnightMove`. -/
def validateKnightMove (m : ChessMove) : Option ChessErr :=
  let rowDiff := intAbs (m.toPos.row - m.fromPos.row)
  let colDiff := intAbs (m.toPos.col - m.fromPos.col)
  if (rowDiff = 2 ∧ colDiff = 1) ∨ (rowDiff = 1 ∧ colDiff = 2) then none
  else some .invalidKnightMove

/-- `validateBishopMove`. -/
def validateBishopMove (s : ChessState) (m : ChessMove) : Option ChessErr :=
  let rowDiff := intAbs (m.toPos.row - m.fromPos.row)
  let colDiff := intAbs (m.toPos.col - m.fromPos.col)
  if rowDiff ≠ colDiff then some .bishopNotDiagonal
  else checkPathClear s.board m.fromPos m.toPos

/-- `validateQueenMove`: rook-legal or bishop-legal. -/
def validateQueenMove (s : ChessState) (m : ChessMove) : Option ChessErr :=
  if (validateRookMove s m).isNone ∨ (validateBishopMove s m).isNone then none
  else some .invalidQueenMove

/-- `validateKingMove`. -/
def validateKingMove (m : ChessMove) : Option ChessErr :=
  let rowDiff := intAbs (m.toPos.row - m.fromPos.row)
  let colDiff := intAbs (m.toPos.col - m.fromPos.col)
  if rowDiff ≤ 1 ∧ colDiff ≤ 1 ∧ (rowDiff ≠ 0 ∨ colDiff ≠ 0) then none
  else some .invalidKingMove

/-- `validatePieceMove`: dispatch on the piece kind. -/
def validatePieceMove (s : ChessState) (m : ChessMove) (piece : ChessPiece) :
    Option ChessErr :=
  if piece.type = "pawn" then validatePawnMove s m piece.color
  else if piece.type = "rook" then validateRookMove s m
  else if piece.type = "knight" then validateKnightMove m
  else if piece.type = "bishop" then validateBishopMove s m
  else if piece.type = "queen" then validateQueenMove s m
  else if piece.type = "king" then validateKingMove m
  else some .unknownPieceType

/-- `validateChessMove`: shared preconditions, then per-piece dispatch. -/
def validateChessMove (s : ChessState) (m : ChessMove) (playerColor : String) :
    Option ChessErr :=
  if ¬ (isValidPosition m.fromPos ∧ isValidPosition m.toPos) then
    some .invalidPosition
  else
    match getCell s.board m.fromPos with
    | none => some .noPieceAtSource
    | some fromPiece =>
      if fromPiece.color ≠ playerColor then some .cannotMoveOpponentPiece
      else
        match getCell s.board m.toPos with
        | some toPiece =>
          if toPiece.color = playerColor then some .cannotCaptureOwnPiece
          else validatePieceMove s m fromPiece
        | none => validatePieceMove s m fromPiece

/-- The body of `ChessEngine.ValidateMove` after the player's colour has
been computed. -/
def chessValidateMoveColor (s : ChessState) (m : ChessMove)
    (playerColor : String) : Option ChessErr :=
  if playerColor ≠ s.currentTurn then some .notPlayersTurn
  else if s.gameEnded then some .gameAlreadyEnded
  else validateChessMove s m playerColor

/-- `ChessEngine.ValidateMove` on decoded values. -/
def chessValidateMove (s : ChessState) (m : ChessMove) (p : Nat) :
    Option ChessErr :=
  chessValidateMoveColor s m (getPlayerColor s p)

/-- `applyChessMove`.  `none` models the Go panics: an out-of-range board
index or the nil dereference of `piece` when the source cell is empty.
Go mutates the placed piece pointer, so the promotion rewrite also drives
the subsequent en-passant and castling-rights checks. -/
def applyChessMove (s : ChessState) (m : ChessMove) (playerColor : String) :
    Option ChessState :=
  match ixOf? m.fromPos, ixOf? m.toPos with
  | some fi, some ti =>
    match s.board fi with
    | none => none
    | some piece =>
      let promoted :=
        if piece.type = "pawn" ∧ (m.toPos.row = 0 ∨ m.toPos.row = 7) then
          if m.promotion ≠ "" then { piece with type := m.promotion }
          else { piece with type := "queen" }
        else piece
      let board1 :=
        Function.update (Function.update s.board ti (some promoted)) fi none
      let s1 := { s with board := board1 }
      let s2 := { s1 with
        enPassantTarget :=
          if promoted.type = "pawn" ∧ intAbs (m.toPos.row - m.fromPos.row) = 2 then
            some ⟨(m.fromPos.row + m.toPos.row) / 2, m.fromPos.col⟩
          else none }
      let s3 :=
        if promoted.type = "king" then
          if playerColor = "white" then
            { s2 with whiteKingSideCastle := false, whiteQueenSideCastle := false }
          else
            { s2 with blackKingSideCastle := false, blackQueenSideCastle := false }
        else s2
      let s4 :=
        if promoted.type = "rook" then
          if m.fromPos.row = 0 ∧ m.fromPos.col = 0 then
            { s3 with blackQueenSideCastle := false }
          else if m.fromPos.row = 0 ∧ m.fromPos.col = 7 then
            { s3 with blackKingSideCastle := false }
          else if m.fromPos.row = 7 ∧ m.fromPos.col = 0 then
            { s3 with whiteQueenSideCastle := false }
          else if m.fromPos.row = 7 ∧ m.fromPos.col = 7 then
            { s3 with whiteKingSideCastle := false }
          else s3
        else s3
      some s4
  | _, _ => none

/-- The double loop of `updateGameStatus` searching for a king of the
given colour. -/
def boardHasKing (b : ChessBoard) (color : String) : Bool :=
  (List.finRange 8).any (fun r => (List.finRange 8).any (fun c =>
    match b (r, c) with
    | some pc => pc.type = "king" ∧ pc.color = color
    | none => false))

/-- `updateGameStatus`: the simplified king-capture terminal check. -/
def updateGameStatus (s : ChessState) : ChessState :=
  if ¬ boardHasKing s.board "white" then
    { s with gameEnded := true, winner := some s.blackPlayer }
  else if ¬ boardHasKing s.board "black" then
    { s with gameEnded := true, winner := some s.whitePlayer }
  else s

/-- The body of `ChessEngine.ApplyMove` after the colour is computed:
apply, flip the turn, bump the ply counter, refresh terminal flags. -/
def chessApplyMoveColor (s : ChessState) (m : ChessMove)
    (playerColor : String) : Option ChessState :=
  (applyChessMove s m playerColor).map (fun s1 =>
    let s2 := { s1 with
      currentTurn := if s1.currentTurn = "white" then "black" else "white" }
    let s3 := { s2 with moveCount := s2.moveCount + 1 }
    updateGameStatus s3)

/-- `ChessEngine.ApplyMove` on decoded values. -/
def chessApplyMove (s : ChessState) (m : ChessMove) (p : Nat) :
    Option ChessState :=
  chessApplyMoveColor s m (getPlayerColor s p)

/-- `generatePawnMoves`: one forward step and the two diagonals (no
two-square advance is generated).  The Go function receives the state but
never reads it. -/
def generatePawnMoves (_s : ChessState) (pos : ChessPos) (color : String) :
    List ChessMove :=
  let direction : Int := if color = "black" then -1 else 1
  let newRow := pos.row + direction
  (if isValidPosition ⟨newRow, pos.col⟩ then
    [({ fromPos := pos, toPos := ⟨newRow, pos.col⟩, promotion := "",
        castling := "" } : ChessMove)]
  else []) ++
  ([-1, 1] : List Int).flatMap (fun colOffset =>
    let newCol := pos.col + colOffset
    if isValidPosition ⟨newRow, newCol⟩ then
      [({ fromPos := pos, toPos := ⟨newRow, newCol⟩, promotion := "",
          castling := "" } : ChessMove)]
    else [])

/-- The `for i := 1; i < 8; i++ { ...; if invalid break; append }` ray
pattern of the sliding generators. -/
def slideMoves (pos : ChessPos) (dirs : List (Int × Int)) : List ChessMove :=
  dirs.flatMap (fun d =>
    ((List.range' 1 7).takeWhile (fun (i : Nat) =>
        isValidPosition ⟨pos.row + d.1 * (i : Int), pos.col + d.2 * (i : Int)⟩)).map
      (fun (i : Nat) =>
        { fromPos := pos
          toPos := ⟨pos.row + d.1 * (i : Int), pos.col + d.2 * (i : Int)⟩
          promotion := "", castling := "" }))

/-- `generateRookMoves`. -/
def generateRookMoves (pos : ChessPos) : List ChessMove :=
  slideMoves pos [(0, 1), (0, -1), (1, 0), (-1, 0)]

/-- `generateBishopMoves`. -/
def generateBishopMoves (pos : ChessPos) : List ChessMove :=
  slideMoves pos [(1, 1), (1, -1), (-1, 1), (-1, -1)]

/-- `generateQueenMoves`. -/
def generateQueenMoves (pos : ChessPos) : List ChessMove :=
  generateRookMoves pos ++ generateBishopMoves pos

/-- The fixed-offset generators for knight and king. -/
def offsetMoves (pos : ChessPos) (offsets : List (Int × Int)) : List ChessMove :=
  offsets.flatMap (fun d =>
    let np : ChessPos := ⟨pos.row + d.1, pos.col + d.2⟩
    if isValidPosition np then
      [({ fromPos := pos, toPos := np, promotion := "", castling := "" } :
        ChessMove)]
    else [])

/-- `generateKnightMoves`. -/
def generateKnightMoves (pos : ChessPos) : List ChessMove :=
  offsetMoves pos [(2, 1), (2, -1), (-2, 1), (-2, -1), (1, 2), (1, -2),
    (-1, 2), (-1, -2)]

/-- `generateKingMoves`. -/
def generateKingMoves (pos : ChessPos) : List ChessMove :=
  offsetMoves pos [(0, 1), (0, -1), (1, 0), (-1, 0), (1, 1), (1, -1),
    (-1, 1), (-1, -1)]

/-- `generatePieceMoves`: dispatch on the piece at `pos` (always non-nil
at the Go call site). -/
def generatePieceMoves (s : ChessState) (pos : ChessPos) : List ChessMove :=
  match getCell s.board pos with
  | none => []
  | some piece =>
    if piece.type = "pawn" then generatePawnMoves s pos piece.color
    else if piece.type = "rook" then generateRookMoves pos
    else if piece.type = "knight" then generateKnightMoves pos
    else if piece.type = "bishop" then generateBishopMoves pos
    else if piece.type = "queen" then generateQueenMoves pos
    else if piece.type = "king" then generateKingMoves pos
    else []

/-- `ChessEngine.GetPossibleMoves`: scan the board, generate candidates
for own pieces, keep those passing `validateChessMove`. -/
def chessGetPossibleMoves (s : ChessState) (p : Nat) : List ChessMove :=
  let playerColor := getPlayerColor s p
  (List.range 8).flatMap (fun row =>
    (List.range 8).flatMap (fun col =>
      match getCell s.board ⟨(row : Int), (col : Int)⟩ with
      | some piece =>
        if piece.color = playerColor then
          (generatePieceMoves s ⟨(row : Int), (col : Int)⟩).filter
            (fun mv => (validateChessMove s mv playerColor).isNone)
        else []
      | none => []))

/-- Number of occupied board cells. -/
def countPieces (b : ChessBoard) : Nat :=
  ∑ ix : BoardIx, if (b ix).isSome then 1 else 0

/-! ## Matchmaking service (backend/internal/lobby/matchmaking.go) -/

/-- `ratingTolerance`: the initial (base) rating tolerance. -/
def ratingTolerance : Nat := 100

/-- `maxRatingTolerance`: the ceiling reached after waiting. -/
def maxRatingTolerance : Nat := 500

/-- One minute in nanoseconds (`time.Minute`). -/
def minuteNs : Nat := 60000000000

/-- `matchmakingTimeout` (5 minutes): both the Redis TTL of a request
payload and the age bound of the cleanup sweep. -/
def matchmakingTimeoutNs : Nat := 5 * 60 * 1000000000

/-- `calculateRatingTolerance` on a non-negative nanosecond wait.
`int(waitTime.Minutes())` truncates the floating-point minute count; for
every duration below the clamp-relevant range that equals the integer
quotient by `time.Minute` used here, and past 20 minutes both readings
are clamped to the maximum anyway. -/
def calculateRatingTolerance (waitNs : Nat) : Nat :=
  let tolerance := ratingTolerance + (waitNs / minuteNs) * 20
  if tolerance > maxRatingTolerance then maxRatingTolerance else tolerance

/-- `MatchmakingRequest` (the game type is omitted: a sweep works queue by
queue inside one game type). -/
structure MMRequest where
  userID : Nat
  rating : Int
  joinedAt : Nat
deriving DecidableEq, Repr

/-- The Redis payload store as `getMatchmakingRequest` sees it: the lookup
succeeds while the key's 5-minute TTL has not elapsed. -/
def storeGet (reqs : List MMRequest) (now : Nat) (uid : Nat) :
    Option MMRequest :=
  match reqs.find? (fun r => r.userID = uid) with
  | some r => if now - r.joinedAt < matchmakingTimeoutNs then some r else none
  | none => none

/-- A payload store that never expires, used only for the counterfactual
reading of the pairing scenario ("both requests still present"). -/
def storeGetNoExpiry (reqs : List MMRequest) (uid : Nat) : Option MMRequest :=
  reqs.find? (fun r => r.userID = uid)

/-- The inner loop of `matchPlayers`: scan the later queue entries for the
first whose rating difference is within the outer entry's tolerance;
entries whose payload lookup fails are skipped. -/
def matchInner (store : Nat → Option MMRequest) (p1 : MMRequest)
    (tol : Nat) : List Nat → Option Nat
  | [] => none
  | uid :: rest =>
    match store uid with
    | none => matchInner store p1 tol rest
    | some p2 =>
      if (p1.rating - p2.rating).natAbs ≤ tol then some uid
      else matchInner store p1 tol rest

/-- The outer loop of `matchPlayers`: for each entry, oldest first, widen
its tolerance by wait time and scan the later entries; stop at the first
match (at most one match per sweep). -/
def matchPlayers (now : Nat) (store : Nat → Option MMRequest) :
    List Nat → Option (Nat × Nat)
  | [] => none
  | [_] => none
  | uid :: rest =>
    match store uid with
    | none => matchPlayers now store rest
    | some p1 =>
      let tol := calculateRatingTolerance (now - p1.joinedAt)
      match matchInner store p1 tol rest with
      | some uid2 => some (uid, uid2)
      | none => matchPlayers now store rest

/-- The two requests of the scenario: ratings 1000 and 1300, queued
simultaneously at time 0. -/
def mmReqA : MMRequest := ⟨1, 1000, 0⟩

/-- Second scenario request. -/
def mmReqB : MMRequest := ⟨2, 1300, 0⟩

/-- The scenario's request payloads. -/
def mmReqs : List MMRequest := [mmReqA, mmReqB]

/-- The scenario's FIFO queue. -/
def mmQueue : List Nat := [1, 2]

/-! ## Session hub (backend websocket package, Hub) -/

/-- A connected client: identifier, owning user, outbound buffer fill
(`pending` messages against the 256-slot `Send` channel), whether `Send`
has been closed, and the rooms it belongs to (`Client.Rooms`). -/
structure HClient where
  cid : Nat
  uid : Nat
  pending : Nat
  cap : Nat
  closed : Bool
  rooms : List Nat
deriving DecidableEq, Repr

/-- The hub registries: clients keyed by client id, rooms keyed by room id
with their member client ids. -/
structure HubState where
  clients : List HClient
  rooms : List (Nat × List Nat)
deriving DecidableEq, Repr

/-- Capacity of a client send channel (`make(chan []byte, 256)`). -/
def sendCap : Nat := 256

/-- `h.clients[cid]`. -/
def hubGetClient (s : HubState) (cid : Nat) : Option HClient :=
  s.clients.find? (fun c => c.cid = cid)

/-- In-place update of a client record. -/
def hubSetClient (clients : List HClient) (c2 : HClient) : List HClient :=
  clients.map (fun c => if c.cid = c2.cid then c2 else c)

/-- `h.rooms[rid]`, returning the member list. -/
def hubGetRoom (s : HubState) (rid : Nat) : Option (List Nat) :=
  (s.rooms.find? (fun r => r.1 = rid)).map (fun r => r.2)

/-- Replace the member list of an existing room. -/
def hubSetRoom (rooms : List (Nat × List Nat)) (rid : Nat)
    (members : List Nat) : List (Nat × List Nat) :=
  rooms.map (fun r => if r.1 = rid then (rid, members) else r)

/-- Remove a member from one room entry. -/
def hubRoomErase (rooms : List (Nat × List Nat)) (rid cid : Nat) :
    List (Nat × List Nat) :=
  rooms.map (fun r => if r.1 = rid then (r.1, r.2.erase cid) else r)

/-- `delete(h.rooms, roomID)`. -/
def hubDelRoom (rooms : List (Nat × List Nat)) (rid : Nat) :
    List (Nat × List Nat) :=
  rooms.filter (fun r => r.1 ≠ rid)

/-- The send loop of `broadcastToRoom` over the member snapshot: each
`select` either enqueues into the buffer or, when the buffer is full,
closes the channel and deletes the member from the room (without deleting
the room).  Returns the eviction count; `none` models the Go panic of
sending on an already-closed channel. -/
def sendAll (rid : Nat) : List Nat → HubState → Nat → Option (HubState × Nat)
  | [], s, evs => some (s, evs)
  | cid :: rest, s, evs =>
    match hubGetClient s cid with
    | none => sendAll rid rest s evs
    | some c =>
      if c.closed then none
      else if c.pending < c.cap then
        let c1 : HClient := { c with pending := c.pending + 1 }
        sendAll rid rest ⟨hubSetClient s.clients c1, s.rooms⟩ evs
      else
        let c1 : HClient := { c with closed := true }
        sendAll rid rest
          ⟨hubSetClient s.clients c1, hubRoomErase s.rooms rid cid⟩ (evs + 1)

/-- `broadcastToRoom`: no-op when the room does not exist. -/
def broadcastToRoomH (s : HubState) (rid : Nat) : Option (HubState × Nat) :=
  match hubGetRoom s rid with
  | none => some (s, 0)
  | some members => sendAll rid members s 0

/-- `removeClientFromRoom`: delete the member, remember whether the room
became empty at that moment, notify the remaining members (a room
broadcast, which may itself evict), then delete the room iff the earlier
emptiness check fired. -/
def removeClientFromRoomH (s : HubState) (cid rid : Nat) :
    Option (HubState × Nat) :=
  match hubGetRoom s rid with
  | none => some (s, 0)
  | some members =>
    let members1 := members.erase cid
    let isEmpty := members1.isEmpty
    let s1 : HubState :=
      ⟨(match hubGetClient s cid with
        | some c =>
          hubSetClient s.clients { c with rooms := c.rooms.erase rid }
        | none => s.clients),
        hubSetRoom s.rooms rid members1⟩
    match broadcastToRoomH s1 rid with
    | none => none
    | some (s2, e) =>
      some ((if isEmpty then { s2 with rooms := hubDelRoom s2.rooms rid }
        else s2), e)

/-- `JoinRoom`: unknown clients are rejected without a state change;
otherwise create the room if absent, add the member, record the room on
the client, and notify the room (the joiner included, as in the Go
code). -/
def joinRoomH (s : HubState) (cid rid : Nat) : Option (HubState × Nat) :=
  match hubGetClient s cid with
  | none => some (s, 0)
  | some c =>
    let s1 : HubState :=
      match hubGetRoom s rid with
      | none => ⟨s.clients, s.rooms ++ [(rid, [cid])]⟩
      | some members =>
        ⟨s.clients, hubSetRoom s.rooms rid
          (if cid ∈ members then members else members ++ [cid])⟩
    let c1 : HClient :=
      { c with rooms := if rid ∈ c.rooms then c.rooms else c.rooms ++ [rid] }
    let s2 : HubState := ⟨hubSetClient s1.clients c1, s1.rooms⟩
    broadcastToRoomH s2 rid

/-- `LeaveRoom`. -/
def leaveRoomH (s : HubState) (cid rid : Nat) : Option (HubState × Nat) :=
  match hubGetClient s cid with
  | none => some (s, 0)
  | some _ => removeClientFromRoomH s cid rid

/-- The per-room loop of `unregisterClient` over the client room
snapshot. -/
def removeFromRooms (cid : Nat) :
    List Nat → HubState → Nat → Option (HubState × Nat)
  | [], s, evs => some (s, evs)
  | rid :: rest, s, evs =>
    match removeClientFromRoomH s cid rid with
    | none => none
    | some (s1, e) => removeFromRooms cid rest s1 (evs + e)

/-- `unregisterClient`: leave every room, then drop the client from the
registry (its channel is closed as it goes). -/
def unregisterH (s : HubState) (cid : Nat) : Option (HubState × Nat) :=
  match hubGetClient s cid with
  | none => some (s, 0)
  | some c =>
    match removeFromRooms cid c.rooms s 0 with
    | none => none
    | some (s1, e) =>
      some (⟨s1.clients.filter (fun c2 => c2.cid ≠ cid), s1.rooms⟩, e)

/-- `registerClient` (`h.clients[client.ID] = client`): a fresh client
with an empty 256-slot buffer. -/
def registerH (s : HubState) (cid uid : Nat) : HubState :=
  let fresh : HClient := ⟨cid, uid, 0, sendCap, false, []⟩
  if (s.clients.find? (fun c => c.cid = cid)).isSome then
    { s with clients := hubSetClient s.clients fresh }
  else { s with clients := s.clients ++ [fresh] }

/-- The hub operations dispatched sequentially by the `Run` loop and the
exported room calls. -/
inductive HubOp where
  | register (cid uid : Nat)
  | unregister (cid : Nat)
  | joinRoom (cid rid : Nat)
  | leaveRoom (cid rid : Nat)
  | roomBroadcast (rid : Nat)
deriving DecidableEq, Repr

/-- One dispatched operation, with its eviction count. -/
def hubStep (s : HubState) : HubOp → Option (HubState × Nat)
  | .register cid uid => some (registerH s cid uid, 0)
  | .unregister cid => unregisterH s cid
  | .joinRoom cid rid => joinRoomH s cid rid
  | .leaveRoom cid rid => leaveRoomH s cid rid
  | .roomBroadcast rid => broadcastToRoomH s rid

/-- A sequential history of operations, accumulating evictions. -/
def hubRun : HubState → List HubOp → Option (HubState × Nat)
  | s, [] => some (s, 0)
  | s, op :: rest =>
    match hubStep s op with
    | none => none
    | some (s1, e) =>
      match hubRun s1 rest with
      | none => none
      | some (s2, e2) => some (s2, e + e2)

/-- The hub's start state. -/
def initialHub : HubState := ⟨[], []⟩

/-- Saturating history: one client joins room 100, then 260 room
broadcasts overfill its 256-slot buffer. -/
def hubC9Ops : List HubOp :=
  [.register 1 10, .joinRoom 1 100] ++
    List.replicate 260 (.roomBroadcast 100)

/-- Eviction-free history for the witness. -/
def hubWitnessOps : List HubOp :=
  [.register 1 10, .joinRoom 1 100]

/-- The state after `hubWitnessOps`. -/
def hubWitnessState : HubState :=
  ⟨[⟨1, 10, 1, 256, false, [100]⟩], [(100, [1])]⟩

/-! ## Concrete test fixtures -/

/-- A board holding a single white pawn at row 6, col 4 (the white pawn
start rank of `setupInitialBoard`). -/
def pawnTestBoard : ChessBoard :=
  fun ix => if ix = ((6 : Fin 8), (4 : Fin 8)) then
    some ⟨"pawn", "white"⟩
  else none

/-- A minimal in-progress chess state: white to move, a single white
pawn. -/
def pawnTestState : ChessState where
  board := pawnTestBoard
  currentTurn := "white"
  player1 := 1
  player2 := 2
  whitePlayer := 1
  blackPlayer := 2
  gameEnded := false
  winner := none
  check := false
  checkmate := false
  stalemate := false
  whiteKingSideCastle := true
  whiteQueenSideCastle := true
  blackKingSideCastle := true
  blackQueenSideCastle := true
  enPassantTarget := none
  moveCount := 0

/-- The legal one-square advance of the test pawn (white pawns move in
the `+1` row direction in this engine). -/
def pawnSingleMove : ChessMove := ⟨⟨6, 4⟩, ⟨7, 4⟩, "", ""⟩

/-- The same advance carrying a promotion tag. -/
def pawnTaggedMove : ChessMove := ⟨⟨6, 4⟩, ⟨7, 4⟩, "rook", ""⟩

/-- The two-square advance from the white start rank; its target row 8 is
off the board. -/
def pawnDoubleMove : ChessMove := ⟨⟨6, 4⟩, ⟨4, 4⟩, "", ""⟩

/-- A black-to-move state with a single black pawn at row 1, col 4. -/
def blackPawnTestState : ChessState := { pawnTestState with
  board := fun ix => if ix = ((1 : Fin 8), (4 : Fin 8)) then
      some ⟨"pawn", "black"⟩
    else none
  currentTurn := "black" }

/-- The legal one-square advance of the black test pawn. -/
def blackPawnMove : ChessMove := ⟨⟨1, 4⟩, ⟨0, 4⟩, "", ""⟩

/-- A small domino state: player 5 on turn holds `(3,4)`, board `[(2,3)]`. -/
def domTestState : DominoState where
  hands := setHand (fun _ => []) 5 [⟨3, 4⟩]
  board := [⟨2, 3⟩]
  boneyard := []
  currentTurn := 5
  player1 := 5
  player2 := 6
  gameEnded := false
  winner := none

/-- Playing the `(3,4)` tile on the right end. -/
def domTestMove : DominoMove := ⟨⟨3, 4⟩, "right", false⟩

/-! ## Theorems -/

/-- The last element of a non-empty list does not depend on the
`getLastD` fallback. -/
lemma getLastD_irrel {α : Type} (l : List α) (a d1 d2 : α) :
    (a :: l).getLastD d1 = (a :: l).getLastD d2 := by
  induction l generalizing a with
  | nil => simp [List.getLastD_eq_getLast?]
  | cons b t ih =>
    simp only [List.getLastD_eq_getLast?, List.getLast?_cons_cons] at *
    simpa [List.getLastD_eq_getLast?] using ih b

/-- Characterization of a legal left placement on a non-empty board. -/
lemma validateTilePlacement_left_isNone (b0 : DominoTile)
    (rest : List DominoTile) (tile : DominoTile) :
    (validateTilePlacement (b0 :: rest) tile "left").isNone = true ↔
      (tile.left = b0.left ∨ tile.right = b0.left) := by
  rw [validateTilePlacement]
  by_cases h1 : tile.left = b0.left <;> by_cases h2 : tile.right = b0.left <;>
    simp [h1, h2]

/-- Characterization of a legal right placement on a non-empty board. -/
lemma validateTilePlacement_right_isNone (b0 : DominoTile)
    (rest : List DominoTile) (tile : DominoTile) :
    (validateTilePlacement (b0 :: rest) tile "right").isNone = true ↔
      (tile.left = ((b0 :: rest).getLastD ⟨0, 0⟩).right ∨
        tile.right = ((b0 :: rest).getLastD ⟨0, 0⟩).right) := by
  rw [validateTilePlacement]
  simp only [List.getLastD_eq_getLast?]
  by_cases h1 :
      tile.left = ((b0 :: rest).getLast?.getD (⟨0, 0⟩ : DominoTile)).right <;>
    by_cases h2 :
      tile.right = ((b0 :: rest).getLast?.getD (⟨0, 0⟩ : DominoTile)).right <;>
    simp [h1, h2]

/-- If some held tile admits a placement on either side of a non-empty
board, `canPlayerPlay` reports true. -/
lemma canPlayerPlay_of_placement (s : DominoState) (p : Nat)
    (tile : DominoTile) (htile : tile ∈ s.hands p)
    (h : (validateTilePlacement s.board tile "left").isNone ∨
      (validateTilePlacement s.board tile "right").isNone) :
    canPlayerPlay s p = true := by
  match hb : s.board with
  | [] => simp [canPlayerPlay, hb]
  | b0 :: rest =>
    rw [canPlayerPlay]
    rw [hb]
    simp only [List.any_eq_true, decide_eq_true_eq]
    refine ⟨tile, htile, ?_⟩
    rw [hb] at h
    rcases h with h | h
    · rcases (validateTilePlacement_left_isNone b0 rest tile).mp h with h1 | h1
      · exact Or.inl h1
      · exact Or.inr (Or.inl h1)
    · rcases (validateTilePlacement_right_isNone b0 rest tile).mp h with h1 | h1
      · refine Or.inr (Or.inr (Or.inl ?_))
        rw [h1]
        exact congrArg DominoTile.right (getLastD_irrel rest b0 ⟨0, 0⟩ b0)
      · refine Or.inr (Or.inr (Or.inr ?_))
        rw [h1]
        exact congrArg DominoTile.right (getLastD_irrel rest b0 ⟨0, 0⟩ b0)

/-- A non-pass entry of `GetPossibleMoves` forces `canPlayerPlay`. -/
lemma canPlayerPlay_of_possible_move (s : DominoState) (p : Nat)
    (pm : DominoMove) (hmem : pm ∈ dominoGetPossibleMoves s p)
    (hnp : pm.pass = false) :
    canPlayerPlay s p = true := by
  rw [dominoGetPossibleMoves] at hmem
  by_cases hb : s.board.length = 0
  · have : s.board = [] := List.length_eq_zero.mp hb
    simp [canPlayerPlay, this]
  · simp only [if_neg hb] at hmem
    set placements := (s.hands p).flatMap (fun tile =>
      (if (validateTilePlacement s.board tile "left").isNone then
        [({ tile := tile, side := "left", pass := false } : DominoMove)]
      else []) ++
      (if (validateTilePlacement s.board tile "right").isNone then
        [({ tile := tile, side := "right", pass := false } : DominoMove)]
      else [])) with hpl
    by_cases hemp : placements.length = 0
    · rw [if_pos hemp] at hmem
      simp only [List.mem_singleton] at hmem
      rw [hmem] at hnp
      simp at hnp
    · rw [if_neg hemp] at hmem
      rw [hpl] at hmem
      rw [List.mem_flatMap] at hmem
      obtain ⟨tile, htile, hin⟩ := hmem
      rw [List.mem_append] at hin
      rcases hin with hin | hin
      · refine canPlayerPlay_of_placement s p tile htile (Or.inl ?_)
        by_cases hv : (validateTilePlacement s.board tile "left").isNone
        · exact hv
        · simp [hv] at hin
      · refine canPlayerPlay_of_placement s p tile htile (Or.inr ?_)
        by_cases hv : (validateTilePlacement s.board tile "right").isNone
        · exact hv
        · simp [hv] at hin

/-- C6.  Must-play rule: when it is `p`'s turn in a non-ended game and
`GetPossibleMoves` lists a non-pass move, `ValidateMove` rejects every
pass move. -/
theorem dominoValidateMove_rejects_pass_when_play_exists
    (s : DominoState) (m : DominoMove) (p : Nat)
    (hturn : s.currentTurn = p) (hend : s.gameEnded = false)
    (hpass : m.pass = true)
    (hmove : ∃ pm ∈ dominoGetPossibleMoves s p, pm.pass = false) :
    (dominoValidateMove s m p).isSome := by
  obtain ⟨pm, hmem, hnp⟩ := hmove
  have hcan := canPlayerPlay_of_possible_move s p pm hmem hnp
  rw [dominoValidateMove]
  simp [hturn, hend, hpass, hcan]

/-- Witness for C6 at a concrete state: board `[(2,3)]`, hand `[(3,4)]`
for player 5 on turn; the tile plays on the right, so a pass is
rejected. -/
theorem dominoValidateMove_rejects_pass_witness :
    (dominoValidateMove
      { hands := setHand (fun _ => []) 5 [⟨3, 4⟩]
        board := [⟨2, 3⟩], boneyard := [], currentTurn := 5
        player1 := 5, player2 := 6, gameEnded := false, winner := none }
      { tile := ⟨0, 0⟩, side := "", pass := true } 5).isSome := by
  refine dominoValidateMove_rejects_pass_when_play_exists _ _ _ rfl rfl rfl ?_
  refine ⟨{ tile := ⟨3, 4⟩, side := "right", pass := false }, ?_, rfl⟩
  decide

/-- C1.  Evaluating `DominoEngine.Initialize` (here on the unshuffled
standard set; the shuffle permutes the same 28 tiles): because
`Player1ID` and `Player2ID` are never assigned, both are `uuid.Nil` and
the dealing loop appends all 14 dealt tiles to the single shared map
entry.  Each player's hand lookup therefore yields 14 tiles, not 7; the
boneyard and board parts of the claim hold, and the starter computation
degenerates to player 1. -/
theorem dominoInit_deals_14_tiles_to_shared_hand :
    ((dominoInitState generateDominoSet).hands
        (dominoInitState generateDominoSet).player1).length = 14 ∧
      ((dominoInitState generateDominoSet).hands
        (dominoInitState generateDominoSet).player2).length = 14 ∧
      (dominoInitState generateDominoSet).boneyard.length = 14 ∧
      (dominoInitState generateDominoSet).board = [] ∧
      (dominoInitState generateDominoSet).player1 =
        (dominoInitState generateDominoSet).player2 ∧
      (dominoInitState generateDominoSet).currentTurn =
        (dominoInitState generateDominoSet).player1 := by
  decide

/-- C2.  The tile-conservation invariant `|hand1|+|hand2|+|board|+|boneyard|
= 28` already fails at the state `Initialize` produces: both hand lookups
hit the same 14-tile map entry, so the sum is 42. -/
theorem dominoInit_tileCount_42 :
    dominoTileCount (dominoInitState generateDominoSet) = 42 ∧
      dominoTileCount (dominoInitState generateDominoSet) ≠ 28 := by
  decide

/-- Unpacking a successful `chessValidateMove`: the turn and game-over
gates passed and the move-level validation succeeded. -/
lemma chessValidateMove_none_parts (s : ChessState) (m : ChessMove) (p : Nat)
    (h : chessValidateMove s m p = none) :
    getPlayerColor s p = s.currentTurn ∧ s.gameEnded = false ∧
      validateChessMove s m (getPlayerColor s p) = none := by
  rw [chessValidateMove, chessValidateMoveColor] at h
  by_cases h1 : getPlayerColor s p = s.currentTurn
  · by_cases h2 : s.gameEnded
    · simp [h1, h2] at h
    · refine ⟨h1, by simpa using h2, ?_⟩
      simpa [h1, h2] using h
  · simp [h1] at h

/-- Unpacking a successful `validateChessMove`. -/
lemma validateChessMove_none_parts (s : ChessState) (m : ChessMove)
    (c : String) (h : validateChessMove s m c = none) :
    isValidPosition m.fromPos = true ∧ isValidPosition m.toPos = true ∧
      ∃ piece, getCell s.board m.fromPos = some piece ∧ piece.color = c ∧
        (∀ tp, getCell s.board m.toPos = some tp → tp.color ≠ c) ∧
        validatePieceMove s m piece = none := by
  rw [validateChessMove] at h
  by_cases hv : (isValidPosition m.fromPos = true) ∧ (isValidPosition m.toPos = true)
  · refine ⟨hv.1, hv.2, ?_⟩
    rw [if_neg (by simpa using hv)] at h
    cases hf : getCell s.board m.fromPos with
    | none => rw [hf] at h; simp at h
    | some piece =>
      simp only [hf] at h
      by_cases hc : piece.color = c
      · refine ⟨piece, rfl, hc, ?_⟩
        rw [if_neg (by simp [hc])] at h
        cases ht : getCell s.board m.toPos with
        | none =>
          simp only [ht] at h
          refine ⟨?_, h⟩
          intro tp htp
          simp at htp
        | some tp =>
          simp only [ht] at h
          by_cases htc : tp.color = c
          · simp [htc] at h
          · rw [if_neg htc] at h
            refine ⟨?_, h⟩
            intro tp2 htp2
            cases htp2
            exact htc
      · simp [hc] at h
  · rw [if_pos (by simpa using hv)] at h
    simp at h

/-- A valid position yields a board index. -/
lemma ixOf?_some_of_valid (pos : ChessPos) (h : isValidPosition pos = true) :
    ∃ ix, ixOf? pos = some ix := by
  rw [isValidPosition] at h
  have h1 := of_decide_eq_true h
  exact ⟨(⟨pos.row.toNat, by omega⟩, ⟨pos.col.toNat, by omega⟩),
    by rw [ixOf?, dif_pos h1]⟩

/-- `getCell` through a resolved index. -/
lemma getCell_eq_of_ix (b : ChessBoard) (pos : ChessPos) (ix : BoardIx)
    (h : ixOf? pos = some ix) : getCell b pos = b ix := by
  rw [getCell, h]

/-- The Go `DominoEngine.ApplyMove` can only fail while decoding JSON, so
the embedded version succeeds on every input. -/
lemma dominoApplyMove_isSome (s : DominoState) (m : DominoMove) (p : Nat) :
    (dominoApplyMove s m p).isSome := by
  rw [dominoApplyMove]
  split
  · simp only []
    split <;> rfl
  · simp only []
    split <;> split <;> rfl

/-- C3.  For both engines, a move accepted by `ValidateMove` is applied by
`ApplyMove` without an error: in chess the only hard failure paths of
`ApplyMove` (index panic, nil source piece) are excluded by validation,
and in dominoes `ApplyMove` can only fail while decoding JSON. -/
theorem validate_ok_implies_apply_ok :
    (∀ (s : ChessState) (m : ChessMove) (p : Nat),
      chessValidateMove s m p = none → (chessApplyMove s m p).isSome) ∧
    (∀ (s : DominoState) (m : DominoMove) (p : Nat),
      dominoValidateMove s m p = none → (dominoApplyMove s m p).isSome) := by
  constructor
  · intro s m p h
    obtain ⟨-, -, hval⟩ := chessValidateMove_none_parts s m p h
    obtain ⟨hfv, htv, piece, hf, -, -, -⟩ :=
      validateChessMove_none_parts s m _ hval
    obtain ⟨fi, hfi⟩ := ixOf?_some_of_valid _ hfv
    obtain ⟨ti, hti⟩ := ixOf?_some_of_valid _ htv
    rw [chessApplyMove, chessApplyMoveColor, Option.isSome_map']
    rw [applyChessMove, hfi, hti]
    have hbf : s.board fi = some piece := by
      rw [← getCell_eq_of_ix s.board m.fromPos fi hfi]
      exact hf
    simp only [hbf, Option.isSome_some]
  · intro s m p _
    exact dominoApplyMove_isSome s m p

/-- Witness for C3: the theorem applied to the one-pawn chess state and
the one-tile domino state. -/
theorem validate_ok_implies_apply_ok_witness :
    (chessApplyMove pawnTestState pawnSingleMove 1).isSome ∧
      (dominoApplyMove domTestState domTestMove 5).isSome :=
  ⟨validate_ok_implies_apply_ok.1 pawnTestState pawnSingleMove 1 (by decide),
    validate_ok_implies_apply_ok.2 domTestState domTestMove 5 (by decide)⟩

/-- C10.  Any identifier other than `WhitePlayer` — including one
belonging to neither player of the game — is classified as black:
`ValidateMove` and `ApplyMove` treat it exactly as they treat the colour
`black`, so no engine operation rejects a non-participant as such. -/
theorem chess_nonparticipant_treated_as_black (s : ChessState)
    (m : ChessMove) (p : Nat) (h : p ≠ s.whitePlayer) :
    getPlayerColor s p = "black" ∧
      chessValidateMove s m p = chessValidateMoveColor s m "black" ∧
      chessApplyMove s m p = chessApplyMoveColor s m "black" := by
  have hc : getPlayerColor s p = "black" := by
    rw [getPlayerColor, if_neg h]
  exact ⟨hc, by rw [chessValidateMove, hc], by rw [chessApplyMove, hc]⟩

/-- Witness for C10: identifier 99 belongs to neither player (players are
1 and 2), yet it validates a black pawn move on black's turn. -/
theorem chess_nonparticipant_treated_as_black_witness :
    (getPlayerColor blackPawnTestState 99 = "black" ∧
      chessValidateMove blackPawnTestState blackPawnMove 99 =
        chessValidateMoveColor blackPawnTestState blackPawnMove "black" ∧
      chessApplyMove blackPawnTestState blackPawnMove 99 =
        chessApplyMoveColor blackPawnTestState blackPawnMove "black") ∧
      chessValidateMove blackPawnTestState blackPawnMove 99 = none :=
  ⟨chess_nonparticipant_treated_as_black blackPawnTestState blackPawnMove 99
      (by decide),
    by decide⟩

/-- `updateGameStatus` never changes the board. -/
lemma updateGameStatus_board (s : ChessState) :
    (updateGameStatus s).board = s.board := by
  rw [updateGameStatus]
  split
  · rfl
  · split <;> rfl

/-- A successful `applyChessMove` writes the moved (possibly promoted)
piece to the destination and clears the source, leaving every other cell
alone. -/
lemma applyChessMove_some_board (s : ChessState) (m : ChessMove) (c : String)
    (s4 : ChessState) (h : applyChessMove s m c = some s4) :
    ∃ fi ti piece promoted,
      ixOf? m.fromPos = some fi ∧ ixOf? m.toPos = some ti ∧
        s.board fi = some piece ∧
        s4.board =
          Function.update (Function.update s.board ti (some promoted)) fi none := by
  rw [applyChessMove] at h
  cases hfi : ixOf? m.fromPos with
  | none => rw [hfi] at h; simp at h
  | some fi =>
    cases hti : ixOf? m.toPos with
    | none => rw [hfi, hti] at h; simp at h
    | some ti =>
      rw [hfi, hti] at h
      cases hbf : s.board fi with
      | none => simp [hbf] at h
      | some piece =>
        simp only [hbf] at h
        refine ⟨fi, ti, piece,
          (if piece.type = "pawn" ∧ (m.toPos.row = 0 ∨ m.toPos.row = 7) then
            (if m.promotion ≠ "" then { piece with type := m.promotion }
            else { piece with type := "queen" })
          else piece), rfl, rfl, hbf, ?_⟩
        injection h with h4
        rw [← h4]
        simp only [apply_ite ChessState.board, ite_self]

/-- Occupied-cell count across a destination write and a source clear at
distinct indices. -/
lemma countPieces_double_update (b : ChessBoard) (fi ti : BoardIx)
    (x piece : ChessPiece) (hfi : b fi = some piece) (hne : fi ≠ ti) :
    countPieces (Function.update (Function.update b ti (some x)) fi none) +
      (if (b ti).isSome then 1 else 0) = countPieces b := by
  classical
  unfold countPieces
  have hcomp : ∀ (g : ChessBoard) (ix0 : BoardIx) (v : Option ChessPiece),
      (fun ix => if ((Function.update g ix0 v) ix).isSome then 1 else 0) =
        Function.update (fun ix => if (g ix).isSome then 1 else 0) ix0
          (if v.isSome then 1 else 0) := by
    intro g ix0 v
    funext ix
    by_cases hx : ix = ix0
    · subst hx; simp [Function.update]
    · simp [Function.update, hx]
  rw [hcomp, hcomp]
  rw [Finset.sum_update_of_mem (Finset.mem_univ fi)]
  have hti : ti ∈ Finset.univ \ {fi} := by
    simp [Finset.mem_sdiff]
    exact fun hh => hne hh.symm
  rw [Finset.sum_update_of_mem hti]
  have hR : ∑ ix : BoardIx, (if (b ix).isSome then 1 else 0) =
      ((∑ ix ∈ (Finset.univ \ {fi}) \ {ti}, if (b ix).isSome then 1 else 0) +
        (if (b ti).isSome then 1 else 0)) + (if (b fi).isSome then 1 else 0) := by
    rw [Finset.sum_eq_sum_diff_singleton_add (Finset.mem_univ fi)]
    rw [Finset.sum_eq_sum_diff_singleton_add hti]
  rw [hR, hfi]
  simp
  omega

/-- C4.  A validated, successfully applied chess move conserves the number
of occupied cells except for exactly one decrement when the destination
was occupied (a capture); the count never increases and drops by at most
one.  (An en-passant capture lands on an empty cell and removes nothing
else, so it does not decrement.) -/
theorem chessApplyMove_piece_count (s : ChessState) (m : ChessMove) (p : Nat)
    (s2 : ChessState) (hv : chessValidateMove s m p = none)
    (ha : chessApplyMove s m p = some s2) :
    countPieces s2.board +
        (if (getCell s.board m.toPos).isSome then 1 else 0) =
      countPieces s.board ∧
      countPieces s2.board ≤ countPieces s.board ∧
      countPieces s.board ≤ countPieces s2.board + 1 := by
  obtain ⟨-, -, hval⟩ := chessValidateMove_none_parts s m p hv
  obtain ⟨hfv, htv, piece, hfcell, hcol, htp, -⟩ :=
    validateChessMove_none_parts s m _ hval
  rw [chessApplyMove, chessApplyMoveColor, Option.map_eq_some'] at ha
  obtain ⟨s4, ha4, hs2⟩ := ha
  obtain ⟨fi, ti, piece2, promoted, hfi, hti, hbf, hboard⟩ :=
    applyChessMove_some_board s m _ s4 ha4
  have hf : s.board fi = some piece := by
    rw [← getCell_eq_of_ix s.board m.fromPos fi hfi]
    exact hfcell
  have hne : fi ≠ ti := by
    intro he
    have hcap : getCell s.board m.toPos = some piece := by
      rw [getCell_eq_of_ix s.board m.toPos ti hti, ← he, hf]
    exact htp piece hcap hcol
  have hs2b : s2.board = s4.board := by
    rw [← hs2]
    simp only []
    rw [updateGameStatus_board]
  have hmain := countPieces_double_update s.board fi ti promoted piece hf hne
  rw [hs2b, hboard, getCell_eq_of_ix s.board m.toPos ti hti]
  refine ⟨hmain, ?_, ?_⟩ <;> by_cases hc : (s.board ti).isSome <;>
    simp [hc] at hmain ⊢ <;> omega

/-- Witness for C4: the single-pawn advance keeps the piece count
non-increasing. -/
theorem chessApplyMove_piece_count_witness :
    countPieces
        ((chessApplyMove pawnTestState pawnSingleMove 1).getD pawnTestState).board ≤
      countPieces pawnTestState.board := by
  have h : chessApplyMove pawnTestState pawnSingleMove 1 =
      some ((chessApplyMove pawnTestState pawnSingleMove 1).getD pawnTestState) :=
    rfl
  exact (chessApplyMove_piece_count pawnTestState pawnSingleMove 1 _
    (by decide) h).2.1

/-- Case split on the Go `abs`. -/
lemma intAbs_cases (x y : Int) (h : intAbs x = y) : x = y ∨ x = -y := by
  rw [intAbs] at h
  split at h <;> omega

/-- Bounds extracted from Go `abs`. -/
lemma intAbs_le_bounds (x y : Int) (h : intAbs x ≤ y) : -y ≤ x ∧ x ≤ y := by
  rw [intAbs] at h
  split at h <;> omega

/-- `isValidPosition` as a proposition. -/
lemma isValidPosition_iff (pos : ChessPos) :
    isValidPosition pos = true ↔
      (0 ≤ pos.row ∧ pos.row < 8 ∧ 0 ≤ pos.col ∧ pos.col < 8) := by
  rw [isValidPosition]
  exact decide_eq_true_iff

/-- An index whose whole prefix satisfies the predicate survives
`takeWhile` on `range'`. -/
lemma mem_takeWhile_range' (p : Nat → Bool) (a n i : Nat) (hai : a ≤ i)
    (hin : i < a + n) (hall : ∀ j, a ≤ j → j ≤ i → p j = true) :
    i ∈ (List.range' a n).takeWhile p := by
  induction n generalizing a with
  | zero => omega
  | succ k ih =>
    rw [List.range'_succ, List.takeWhile_cons, hall a le_rfl hai]
    rw [if_pos rfl]
    by_cases hia : i = a
    · simp [hia]
    · simp only [List.mem_cons]
      exact Or.inr (ih (a + 1) (by omega) (by omega)
        (fun j hj1 hj2 => hall j (by omega) hj2))

/-- Membership in the fixed-offset generators. -/
lemma mem_offsetMoves (pos : ChessPos) (offsets : List (Int × Int))
    (d : Int × Int) (hd : d ∈ offsets)
    (hvalid : isValidPosition ⟨pos.row + d.1, pos.col + d.2⟩ = true) :
    ({ fromPos := pos, toPos := ⟨pos.row + d.1, pos.col + d.2⟩,
       promotion := "", castling := "" } : ChessMove) ∈ offsetMoves pos offsets := by
  rw [offsetMoves, List.mem_flatMap]
  refine ⟨d, hd, ?_⟩
  simp only [hvalid, if_true, List.mem_singleton]

/-- Membership in the sliding-ray generators: a ray index all of whose
predecessors stay on the board is enumerated. -/
lemma mem_slideMoves (pos : ChessPos) (dirs : List (Int × Int))
    (d : Int × Int) (hd : d ∈ dirs) (i : Nat) (h1 : 1 ≤ i) (h7 : i ≤ 7)
    (hall : ∀ j : Nat, 1 ≤ j → j ≤ i →
      isValidPosition ⟨pos.row + d.1 * (j : Int), pos.col + d.2 * (j : Int)⟩ = true) :
    ({ fromPos := pos,
       toPos := ⟨pos.row + d.1 * (i : Int), pos.col + d.2 * (i : Int)⟩,
       promotion := "", castling := "" } : ChessMove) ∈ slideMoves pos dirs := by
  rw [slideMoves, List.mem_flatMap]
  refine ⟨d, hd, ?_⟩
  rw [List.mem_map]
  refine ⟨i, ?_, rfl⟩
  exact mem_takeWhile_range' _ 1 7 i h1 (by omega)
    (fun j hj1 hj2 => hall j hj1 (by omega))

/-- `isValidPosition` on a literal position. -/
lemma isValidPosition_mk (r c : Int) :
    isValidPosition ⟨r, c⟩ = true ↔ (0 ≤ r ∧ r < 8 ∧ 0 ≤ c ∧ c < 8) :=
  isValidPosition_iff ⟨r, c⟩

/-- Offset-generator membership stated on raw coordinates. -/
lemma mem_offsetMoves_of_diff (fr fc tr tc : Int) (offsets : List (Int × Int))
    (hd : (tr - fr, tc - fc) ∈ offsets)
    (htv : isValidPosition ⟨tr, tc⟩ = true) :
    (⟨⟨fr, fc⟩, ⟨tr, tc⟩, "", ""⟩ : ChessMove) ∈ offsetMoves ⟨fr, fc⟩ offsets := by
  have hkey := mem_offsetMoves ⟨fr, fc⟩ offsets (tr - fr, tc - fc) hd
    (show isValidPosition ⟨fr + (tr - fr), fc + (tc - fc)⟩ = true from by
      rw [show fr + (tr - fr) = tr from by ring,
        show fc + (tc - fc) = tc from by ring]
      exact htv)
  rw [show (⟨fr, fc⟩ : ChessPos).row + (tr - fr, tc - fc).1 = tr from by
        show fr + (tr - fr) = tr
        ring,
      show (⟨fr, fc⟩ : ChessPos).col + (tr - fr, tc - fc).2 = tc from by
        show fc + (tc - fc) = tc
        ring] at hkey
  exact hkey

/-- Sliding-generator membership stated on raw coordinates. -/
lemma mem_slideMoves_of_diff (fr fc tr tc : Int) (dirs : List (Int × Int))
    (d : Int × Int) (i : Nat) (hd : d ∈ dirs) (h1 : 1 ≤ i) (h7 : i ≤ 7)
    (hrow : fr + d.1 * (i : Int) = tr) (hcol : fc + d.2 * (i : Int) = tc)
    (hall : ∀ j : Nat, 1 ≤ j → j ≤ i →
      isValidPosition ⟨fr + d.1 * (j : Int), fc + d.2 * (j : Int)⟩ = true) :
    (⟨⟨fr, fc⟩, ⟨tr, tc⟩, "", ""⟩ : ChessMove) ∈ slideMoves ⟨fr, fc⟩ dirs := by
  have hkey := mem_slideMoves ⟨fr, fc⟩ dirs d hd i h1 h7
    (fun j hj1 hj2 => hall j hj1 hj2)
  rw [show (⟨fr, fc⟩ : ChessPos).row + d.1 * (i : Int) = tr from hrow,
    show (⟨fr, fc⟩ : ChessPos).col + d.2 * (i : Int) = tc from hcol] at hkey
  exact hkey

/-- Every validated knight move is generated. -/
lemma mem_generateKnightMoves (fr fc tr tc : Int)
    (htv : isValidPosition ⟨tr, tc⟩ = true)
    (hk : validateKnightMove ⟨⟨fr, fc⟩, ⟨tr, tc⟩, "", ""⟩ = none) :
    (⟨⟨fr, fc⟩, ⟨tr, tc⟩, "", ""⟩ : ChessMove) ∈ generateKnightMoves ⟨fr, fc⟩ := by
  rw [validateKnightMove] at hk
  by_cases hc : (intAbs (tr - fr) = 2 ∧ intAbs (tc - fc) = 1) ∨
      (intAbs (tr - fr) = 1 ∧ intAbs (tc - fc) = 2)
  · rw [generateKnightMoves]
    refine mem_offsetMoves_of_diff fr fc tr tc _ ?_ htv
    rcases hc with ⟨h2, h1⟩ | ⟨h1, h2⟩
    · rcases intAbs_cases _ _ h2 with ha | ha <;>
        rcases intAbs_cases _ _ h1 with hb | hb <;> simp [ha, hb]
    · rcases intAbs_cases _ _ h1 with ha | ha <;>
        rcases intAbs_cases _ _ h2 with hb | hb <;> simp [ha, hb]
  · rw [if_neg hc] at hk
    cases hk

/-- Every validated king move is generated. -/
lemma mem_generateKingMoves (fr fc tr tc : Int)
    (htv : isValidPosition ⟨tr, tc⟩ = true)
    (hk : validateKingMove ⟨⟨fr, fc⟩, ⟨tr, tc⟩, "", ""⟩ = none) :
    (⟨⟨fr, fc⟩, ⟨tr, tc⟩, "", ""⟩ : ChessMove) ∈ generateKingMoves ⟨fr, fc⟩ := by
  rw [validateKingMove] at hk
  by_cases hc : intAbs (tr - fr) ≤ 1 ∧ intAbs (tc - fc) ≤ 1 ∧
      (intAbs (tr - fr) ≠ 0 ∨ intAbs (tc - fc) ≠ 0)
  · rw [generateKingMoves]
    refine mem_offsetMoves_of_diff fr fc tr tc _ ?_ htv
    obtain ⟨h1, h2, h3⟩ := hc
    obtain ⟨h1a, h1b⟩ := intAbs_le_bounds _ _ h1
    obtain ⟨h2a, h2b⟩ := intAbs_le_bounds _ _ h2
    have h0 : ¬(tr - fr = 0 ∧ tc - fc = 0) := by
      intro h0
      rcases h3 with h3 | h3 <;> (rw [intAbs] at h3; omega)
    have hr3 : tr - fr = -1 ∨ tr - fr = 0 ∨ tr - fr = 1 := by omega
    have hc3 : tc - fc = -1 ∨ tc - fc = 0 ∨ tc - fc = 1 := by omega
    rcases hr3 with ha | ha | ha <;> rcases hc3 with hb | hb | hb <;>
      (simp [ha, hb]; try omega)
  · rw [if_neg hc] at hk
    cases hk

/-- A straight-line move between distinct on-board squares is generated by
the rook ray enumerator. -/
lemma mem_generateRookMoves (fr fc tr tc : Int)
    (hfv : isValidPosition ⟨fr, fc⟩ = true)
    (htv : isValidPosition ⟨tr, tc⟩ = true)
    (hne : ¬(fr = tr ∧ fc = tc)) (hline : fr = tr ∨ fc = tc) :
    (⟨⟨fr, fc⟩, ⟨tr, tc⟩, "", ""⟩ : ChessMove) ∈ generateRookMoves ⟨fr, fc⟩ := by
  rw [generateRookMoves]
  rw [isValidPosition_mk] at hfv htv
  rcases hline with he | he
  · have hcne : fc ≠ tc := fun hcc => hne ⟨he, hcc⟩
    by_cases hlt : fc < tc
    · refine mem_slideMoves_of_diff fr fc tr tc _ (0, 1) (tc - fc).toNat
        (by simp) (by omega) (by omega) (by simp [he]) (by simp; omega)
        (fun j hj1 hj2 => by rw [isValidPosition_mk]; simp; omega)
    · refine mem_slideMoves_of_diff fr fc tr tc _ (0, -1) (fc - tc).toNat
        (by simp) (by omega) (by omega) (by simp [he]) (by simp; omega)
        (fun j hj1 hj2 => by rw [isValidPosition_mk]; simp; omega)
  · have hrne : fr ≠ tr := fun hrr => hne ⟨hrr, he⟩
    by_cases hlt : fr < tr
    · refine mem_slideMoves_of_diff fr fc tr tc _ (1, 0) (tr - fr).toNat
        (by simp) (by omega) (by omega) (by simp; omega) (by simp [he])
        (fun j hj1 hj2 => by rw [isValidPosition_mk]; simp; omega)
    · refine mem_slideMoves_of_diff fr fc tr tc _ (-1, 0) (fr - tr).toNat
        (by simp) (by omega) (by omega) (by simp; omega) (by simp [he])
        (fun j hj1 hj2 => by rw [isValidPosition_mk]; simp; omega)

/-- Case split for equal Go-`abs` values. -/
lemma intAbs_eq_intAbs (x y : Int) (h : intAbs x = intAbs y) :
    x = y ∨ x = -y := by
  rw [intAbs, intAbs] at h
  split at h <;> split at h <;> omega

/-- A diagonal move between distinct on-board squares is generated by the
bishop ray enumerator. -/
lemma mem_generateBishopMoves (fr fc tr tc : Int)
    (hfv : isValidPosition ⟨fr, fc⟩ = true)
    (htv : isValidPosition ⟨tr, tc⟩ = true)
    (hne : ¬(fr = tr ∧ fc = tc))
    (hdiag : intAbs (tr - fr) = intAbs (tc - fc)) :
    (⟨⟨fr, fc⟩, ⟨tr, tc⟩, "", ""⟩ : ChessMove) ∈ generateBishopMoves ⟨fr, fc⟩ := by
  rw [generateBishopMoves]
  rw [isValidPosition_mk] at hfv htv
  have hcases := intAbs_eq_intAbs _ _ hdiag
  have hr0 : fr ≠ tr := by
    intro hrr
    refine hne ⟨hrr, ?_⟩
    omega
  by_cases hrlt : fr < tr
  · by_cases hclt : fc < tc
    · refine mem_slideMoves_of_diff fr fc tr tc _ (1, 1) (tr - fr).toNat
        (by simp) (by omega) (by omega) (by simp; omega)
        (by simp; omega)
        (fun j hj1 hj2 => by rw [isValidPosition_mk]; simp; omega)
    · refine mem_slideMoves_of_diff fr fc tr tc _ (1, -1) (tr - fr).toNat
        (by simp) (by omega) (by omega) (by simp; omega)
        (by simp; omega)
        (fun j hj1 hj2 => by rw [isValidPosition_mk]; simp; omega)
  · by_cases hclt : fc < tc
    · refine mem_slideMoves_of_diff fr fc tr tc _ (-1, 1) (fr - tr).toNat
        (by simp) (by omega) (by omega) (by simp; omega)
        (by simp; omega)
        (fun j hj1 hj2 => by rw [isValidPosition_mk]; simp; omega)
    · refine mem_slideMoves_of_diff fr fc tr tc _ (-1, -1) (fr - tr).toNat
        (by simp) (by omega) (by omega) (by simp; omega)
        (by simp; omega)
        (fun j hj1 hj2 => by rw [isValidPosition_mk]; simp; omega)

/-- A rook-legal move is on a rank or file. -/
lemma validateRookMove_none_line (s : ChessState) (m : ChessMove)
    (h : (validateRookMove s m).isNone = true) :
    m.fromPos.row = m.toPos.row ∨ m.fromPos.col = m.toPos.col := by
  rw [validateRookMove] at h
  by_cases hc : m.fromPos.row ≠ m.toPos.row ∧ m.fromPos.col ≠ m.toPos.col
  · rw [if_pos hc] at h
    simp at h
  · tauto

/-- A bishop-legal move is on a diagonal. -/
lemma validateBishopMove_none_diag (s : ChessState) (m : ChessMove)
    (h : (validateBishopMove s m).isNone = true) :
    intAbs (m.toPos.row - m.fromPos.row) = intAbs (m.toPos.col - m.fromPos.col) := by
  rw [validateBishopMove] at h
  by_cases hc : intAbs (m.toPos.row - m.fromPos.row) ≠
      intAbs (m.toPos.col - m.fromPos.col)
  · rw [if_pos hc] at h
    simp at h
  · tauto

/-- Every validated queen move is generated. -/
lemma mem_generateQueenMoves (s : ChessState) (fr fc tr tc : Int)
    (hfv : isValidPosition ⟨fr, fc⟩ = true)
    (htv : isValidPosition ⟨tr, tc⟩ = true)
    (hne : ¬(fr = tr ∧ fc = tc))
    (hq : validateQueenMove s ⟨⟨fr, fc⟩, ⟨tr, tc⟩, "", ""⟩ = none) :
    (⟨⟨fr, fc⟩, ⟨tr, tc⟩, "", ""⟩ : ChessMove) ∈ generateQueenMoves ⟨fr, fc⟩ := by
  rw [generateQueenMoves, List.mem_append]
  rw [validateQueenMove] at hq
  by_cases hc : (validateRookMove s ⟨⟨fr, fc⟩, ⟨tr, tc⟩, "", ""⟩).isNone = true ∨
      (validateBishopMove s ⟨⟨fr, fc⟩, ⟨tr, tc⟩, "", ""⟩).isNone = true
  · rcases hc with hc | hc
    · left
      have hline : fr = tr ∨ fc = tc :=
        validateRookMove_none_line s ⟨⟨fr, fc⟩, ⟨tr, tc⟩, "", ""⟩ hc
      exact mem_generateRookMoves fr fc tr tc hfv htv hne hline
    · right
      have hdiag : intAbs (tr - fr) = intAbs (tc - fc) :=
        validateBishopMove_none_diag s ⟨⟨fr, fc⟩, ⟨tr, tc⟩, "", ""⟩ hc
      exact mem_generateBishopMoves fr fc tr tc hfv htv hne hdiag
  · rw [if_neg hc] at hq
    cases hq

/-- Every validated pawn move is generated.  (The two-square branch of
`validatePawnMove` cannot fire for an on-board target: it would need
target row 8 for white or -1 for black.) -/
lemma mem_generatePawnMoves_of_valid (s : ChessState) (fr fc tr tc : Int)
    (color : String) (htv : isValidPosition ⟨tr, tc⟩ = true)
    (hpm : validatePawnMove s ⟨⟨fr, fc⟩, ⟨tr, tc⟩, "", ""⟩ color = none) :
    (⟨⟨fr, fc⟩, ⟨tr, tc⟩, "", ""⟩ : ChessMove) ∈
      generatePawnMoves s ⟨fr, fc⟩ color := by
  rw [validatePawnMove] at hpm
  rw [generatePawnMoves]
  by_cases hb : color = "black"
  · simp only [hb, eq_self_iff_true, if_true, ite_true] at hpm ⊢
    split_ifs at hpm with h1 h2 h3 h4
    · obtain ⟨h1a, h1b, -⟩ := h1
      have h1a' : tc - fc = 0 := h1a
      have h1b' : tr - fr = -1 := h1b
      have e1 : tr = fr + (-1 : Int) := by omega
      have e2 : tc = fc := by omega
      subst e1
      subst e2
      rw [List.mem_append]
      left
      rw [if_pos htv]
      simp
    · exfalso
      rw [isValidPosition_mk] at htv
      obtain ⟨-, h2b, h2c, -, -⟩ := h2
      have h2b' : tr - fr = 2 * (-1 : Int) := h2b
      have h2c' : fr = (1 : Int) := h2c
      omega
    · obtain ⟨h3a, h3b, -⟩ := h3
      have h3a' : intAbs (tc - fc) = 1 := h3a
      have h3b' : tr - fr = -1 := h3b
      rcases intAbs_cases _ _ h3a' with hca | hca
      · have e1 : tr = fr + (-1 : Int) := by omega
        have e2 : tc = fc + (1 : Int) := by omega
        subst e1
        subst e2
        rw [List.mem_append]
        right
        rw [List.mem_flatMap]
        refine ⟨1, by simp, ?_⟩
        rw [if_pos htv]
        simp
      · have e1 : tr = fr + (-1 : Int) := by omega
        have e2 : tc = fc + (-1 : Int) := by omega
        subst e1
        subst e2
        rw [List.mem_append]
        right
        rw [List.mem_flatMap]
        refine ⟨-1, by simp, ?_⟩
        rw [if_pos htv]
        simp
    · obtain ⟨h4a, h4b, -⟩ := h4
      have h4a' : intAbs (tc - fc) = 1 := h4a
      have h4b' : tr - fr = -1 := h4b
      rcases intAbs_cases _ _ h4a' with hca | hca
      · have e1 : tr = fr + (-1 : Int) := by omega
        have e2 : tc = fc + (1 : Int) := by omega
        subst e1
        subst e2
        rw [List.mem_append]
        right
        rw [List.mem_flatMap]
        refine ⟨1, by simp, ?_⟩
        rw [if_pos htv]
        simp
      · have e1 : tr = fr + (-1 : Int) := by omega
        have e2 : tc = fc + (-1 : Int) := by omega
        subst e1
        subst e2
        rw [List.mem_append]
        right
        rw [List.mem_flatMap]
        refine ⟨-1, by simp, ?_⟩
        rw [if_pos htv]
        simp
  · simp only [hb, if_false, ite_false] at hpm ⊢
    split_ifs at hpm with h1 h2 h3 h4
    · obtain ⟨h1a, h1b, -⟩ := h1
      have h1a' : tc - fc = 0 := h1a
      have h1b' : tr - fr = 1 := h1b
      have e1 : tr = fr + (1 : Int) := by omega
      have e2 : tc = fc := by omega
      subst e1
      subst e2
      rw [List.mem_append]
      left
      rw [if_pos htv]
      simp
    · exfalso
      rw [isValidPosition_mk] at htv
      obtain ⟨-, h2b, h2c, -, -⟩ := h2
      have h2b' : tr - fr = 2 * (1 : Int) := h2b
      have h2c' : fr = (6 : Int) := h2c
      omega
    · obtain ⟨h3a, h3b, -⟩ := h3
      have h3a' : intAbs (tc - fc) = 1 := h3a
      have h3b' : tr - fr = 1 := h3b
      rcases intAbs_cases _ _ h3a' with hca | hca
      · have e1 : tr = fr + (1 : Int) := by omega
        have e2 : tc = fc + (1 : Int) := by omega
        subst e1
        subst e2
        rw [List.mem_append]
        right
        rw [List.mem_flatMap]
        refine ⟨1, by simp, ?_⟩
        rw [if_pos htv]
        simp
      · have e1 : tr = fr + (1 : Int) := by omega
        have e2 : tc = fc + (-1 : Int) := by omega
        subst e1
        subst e2
        rw [List.mem_append]
        right
        rw [List.mem_flatMap]
        refine ⟨-1, by simp, ?_⟩
        rw [if_pos htv]
        simp
    · obtain ⟨h4a, h4b, -⟩ := h4
      have h4a' : intAbs (tc - fc) = 1 := h4a
      have h4b' : tr - fr = 1 := h4b
      rcases intAbs_cases _ _ h4a' with hca | hca
      · have e1 : tr = fr + (1 : Int) := by omega
        have e2 : tc = fc + (1 : Int) := by omega
        subst e1
        subst e2
        rw [List.mem_append]
        right
        rw [List.mem_flatMap]
        refine ⟨1, by simp, ?_⟩
        rw [if_pos htv]
        simp
      · have e1 : tr = fr + (1 : Int) := by omega
        have e2 : tc = fc + (-1 : Int) := by omega
        subst e1
        subst e2
        rw [List.mem_append]
        right
        rw [List.mem_flatMap]
        refine ⟨-1, by simp, ?_⟩
        rw [if_pos htv]
        simp

/-- The two-square branch of `validatePawnMove` is dead code for on-board
targets: white would need target row 8, black row -1. -/
lemma validatePawnMove_not_double (s : ChessState) (fr fc tr tc : Int)
    (color : String) (htv : isValidPosition ⟨tr, tc⟩ = true)
    (hpm : validatePawnMove s ⟨⟨fr, fc⟩, ⟨tr, tc⟩, "", ""⟩ color = none) :
    intAbs (tr - fr) ≠ 2 := by
  intro hd
  rcases intAbs_cases _ _ hd with hca | hca <;>
    rw [isValidPosition_mk] at htv <;>
    rw [validatePawnMove] at hpm <;>
    by_cases hb : color = "black" <;>
    simp only [hb, eq_self_iff_true, if_true, ite_true, if_false, ite_false]
      at hpm <;>
    split_ifs at hpm with h1 h2 h3 h4 <;>
    first
    | (obtain ⟨-, hrd, -⟩ := h1
       have hrd' : tr - fr = (-1 : Int) := hrd
       omega)
    | (obtain ⟨-, hrd, -⟩ := h1
       have hrd' : tr - fr = (1 : Int) := hrd
       omega)
    | (obtain ⟨-, hrd, hsr, -, -⟩ := h2
       have hrd' : tr - fr = 2 * (-1 : Int) := hrd
       have hsr' : fr = (1 : Int) := hsr
       omega)
    | (obtain ⟨-, hrd, hsr, -, -⟩ := h2
       have hrd' : tr - fr = 2 * (1 : Int) := hrd
       have hsr' : fr = (6 : Int) := hsr
       omega)
    | (obtain ⟨-, hrd, -⟩ := h3
       have hrd' : tr - fr = (-1 : Int) := hrd
       omega)
    | (obtain ⟨-, hrd, -⟩ := h3
       have hrd' : tr - fr = (1 : Int) := hrd
       omega)
    | (obtain ⟨-, hrd, -⟩ := h4
       have hrd' : tr - fr = (-1 : Int) := hrd
       omega)
    | (obtain ⟨-, hrd, -⟩ := h4
       have hrd' : tr - fr = (1 : Int) := hrd
       omega)

/-- Dispatch: every move passing per-piece validation (between distinct
on-board squares, with empty tags) is produced by `generatePieceMoves`. -/
lemma mem_generatePieceMoves (s : ChessState) (fr fc tr tc : Int)
    (piece : ChessPiece)
    (hfv : isValidPosition ⟨fr, fc⟩ = true)
    (htv : isValidPosition ⟨tr, tc⟩ = true)
    (hf : getCell s.board ⟨fr, fc⟩ = some piece)
    (hne : ¬(fr = tr ∧ fc = tc))
    (hpm : validatePieceMove s ⟨⟨fr, fc⟩, ⟨tr, tc⟩, "", ""⟩ piece = none) :
    (⟨⟨fr, fc⟩, ⟨tr, tc⟩, "", ""⟩ : ChessMove) ∈
      generatePieceMoves s ⟨fr, fc⟩ := by
  rw [generatePieceMoves, hf]
  simp only []
  rw [validatePieceMove] at hpm
  by_cases ht1 : piece.type = "pawn"
  · rw [if_pos ht1] at hpm ⊢
    exact mem_generatePawnMoves_of_valid s fr fc tr tc piece.color htv hpm
  · rw [if_neg ht1] at hpm ⊢
    by_cases ht2 : piece.type = "rook"
    · rw [if_pos ht2] at hpm ⊢
      refine mem_generateRookMoves fr fc tr tc hfv htv hne ?_
      exact validateRookMove_none_line s ⟨⟨fr, fc⟩, ⟨tr, tc⟩, "", ""⟩
        (by rw [hpm]; rfl)
    · rw [if_neg ht2] at hpm ⊢
      by_cases ht3 : piece.type = "knight"
      · rw [if_pos ht3] at hpm ⊢
        exact mem_generateKnightMoves fr fc tr tc htv hpm
      · rw [if_neg ht3] at hpm ⊢
        by_cases ht4 : piece.type = "bishop"
        · rw [if_pos ht4] at hpm ⊢
          refine mem_generateBishopMoves fr fc tr tc hfv htv hne ?_
          exact validateBishopMove_none_diag s ⟨⟨fr, fc⟩, ⟨tr, tc⟩, "", ""⟩
            (by rw [hpm]; rfl)
        · rw [if_neg ht4] at hpm ⊢
          by_cases ht5 : piece.type = "queen"
          · rw [if_pos ht5] at hpm ⊢
            exact mem_generateQueenMoves s fr fc tr tc hfv htv hne hpm
          · rw [if_neg ht5] at hpm ⊢
            by_cases ht6 : piece.type = "king"
            · rw [if_pos ht6] at hpm ⊢
              exact mem_generateKingMoves fr fc tr tc htv hpm
            · rw [if_neg ht6] at hpm
              exact Option.noConfusion hpm

/-- C5 (amended).  `GetPossibleMoves` is complete for moves carrying no
promotion/castling tag: every such move accepted by `ValidateMove` is
enumerated.  Moreover no accepted move is ever a two-square pawn advance
(the engine's pawn directions make its target row 8 or -1, off the
board), so the claim's two-square example is unsatisfiable, and
enumerated moves always carry empty tags while `ValidateMove` ignores
the tags, which is the source of the counterexample. -/
theorem chessGetPossibleMoves_complete_untagged :
    (∀ (s : ChessState) (m : ChessMove) (p : Nat),
      m.promotion = "" → m.castling = "" →
      chessValidateMove s m p = none → m ∈ chessGetPossibleMoves s p) ∧
    (∀ (s : ChessState) (m : ChessMove) (p : Nat) (piece : ChessPiece),
      chessValidateMove s m p = none →
      getCell s.board m.fromPos = some piece → piece.type = "pawn" →
      intAbs (m.toPos.row - m.fromPos.row) ≠ 2) := by
  constructor
  · intro s m p hprom hcast hv
    obtain ⟨hturn, hend, hval⟩ := chessValidateMove_none_parts s m p hv
    obtain ⟨hfv, htv, piece, hf, hcol, htp, hpm⟩ :=
      validateChessMove_none_parts s m _ hval
    obtain ⟨⟨fr, fc⟩, ⟨tr, tc⟩, prom, cast⟩ := m
    have hprom' : prom = "" := hprom
    have hcast' : cast = "" := hcast
    subst hprom'
    subst hcast'
    have hfv' : isValidPosition ⟨fr, fc⟩ = true := hfv
    have htv' : isValidPosition ⟨tr, tc⟩ = true := htv
    have hf' : getCell s.board ⟨fr, fc⟩ = some piece := hf
    have hne : ¬(fr = tr ∧ fc = tc) := by
      rintro ⟨ha, hb⟩
      subst ha
      subst hb
      exact htp piece hf' hcol
    have hgen := mem_generatePieceMoves s fr fc tr tc piece hfv' htv' hf' hne hpm
    rw [chessGetPossibleMoves]
    rw [isValidPosition_mk] at hfv'
    rw [List.mem_flatMap]
    refine ⟨fr.toNat, by rw [List.mem_range]; omega, ?_⟩
    rw [List.mem_flatMap]
    refine ⟨fc.toNat, by rw [List.mem_range]; omega, ?_⟩
    have hexpos : (⟨(fr.toNat : Int), (fc.toNat : Int)⟩ : ChessPos) = ⟨fr, fc⟩ := by
      rw [Int.toNat_of_nonneg (by omega), Int.toNat_of_nonneg (by omega)]
    rw [hexpos, hf']
    simp only []
    rw [if_pos hcol]
    rw [List.mem_filter]
    refine ⟨hgen, ?_⟩
    have hval' : validateChessMove s ⟨⟨fr, fc⟩, ⟨tr, tc⟩, "", ""⟩
        (getPlayerColor s p) = none := hval
    rw [hval']
    rfl
  · intro s m p piece hv hf htype
    obtain ⟨-, -, hval⟩ := chessValidateMove_none_parts s m p hv
    obtain ⟨hfv, htv, piece2, hf2, hcol, htp, hpm⟩ :=
      validateChessMove_none_parts s m _ hval
    rw [hf] at hf2
    injection hf2 with hf2
    subst hf2
    obtain ⟨⟨fr, fc⟩, ⟨tr, tc⟩, prom, cast⟩ := m
    have htv' : isValidPosition ⟨tr, tc⟩ = true := htv
    rw [validatePieceMove] at hpm
    rw [if_pos htype] at hpm
    have hpm' : validatePawnMove s ⟨⟨fr, fc⟩, ⟨tr, tc⟩, "", ""⟩ piece.color =
        none := hpm
    exact validatePawnMove_not_double s fr fc tr tc piece.color htv' hpm'

/-- Counterexample to C5 as stated: the tagged move `(6,4)→(7,4)` with
promotion "rook" passes `ValidateMove` (which ignores the tag), but
`GetPossibleMoves` only emits tag-free moves, so it is not enumerated. -/
theorem chessGetPossibleMoves_misses_tagged_move :
    chessValidateMove pawnTestState pawnTaggedMove 1 = none ∧
      pawnTaggedMove ∉ chessGetPossibleMoves pawnTestState 1 := by
  decide

/-- Witness for the amended C5: the plain one-square advance is both
validated and enumerated, and is not a two-square advance. -/
theorem chessGetPossibleMoves_complete_untagged_witness :
    pawnSingleMove ∈ chessGetPossibleMoves pawnTestState 1 ∧
      intAbs (pawnSingleMove.toPos.row - pawnSingleMove.fromPos.row) ≠ 2 :=
  ⟨chessGetPossibleMoves_complete_untagged.1 pawnTestState pawnSingleMove 1
      rfl rfl (by decide),
    chessGetPossibleMoves_complete_untagged.2 pawnTestState pawnSingleMove 1
      ⟨"pawn", "white"⟩ (by decide) (by decide) rfl⟩

/-- C7.  The effective tolerance equals base + floor(wait minutes)·20
clamped at the maximum; it is monotone in the wait and never exceeds the
maximum. -/
theorem calculateRatingTolerance_props :
    (∀ w : Nat, calculateRatingTolerance w =
      min (ratingTolerance + (w / minuteNs) * 20) maxRatingTolerance) ∧
    (∀ w1 w2 : Nat, w1 ≤ w2 →
      calculateRatingTolerance w1 ≤ calculateRatingTolerance w2) ∧
    (∀ w : Nat, calculateRatingTolerance w ≤ maxRatingTolerance) := by
  have heq : ∀ w : Nat, calculateRatingTolerance w =
      min (ratingTolerance + (w / minuteNs) * 20) maxRatingTolerance := by
    intro w
    rw [calculateRatingTolerance]
    simp only [ratingTolerance, maxRatingTolerance, minuteNs]
    split <;> omega
  refine ⟨heq, fun w1 w2 h => ?_, fun w => ?_⟩
  · rw [heq w1, heq w2]
    simp only [ratingTolerance, maxRatingTolerance, minuteNs]
    have hdiv : w1 / 60000000000 ≤ w2 / 60000000000 :=
      Nat.div_le_div_right h
    omega
  · rw [heq w]
    omega

/-- Witness for C7 at concrete waits. -/
theorem calculateRatingTolerance_props_witness :
    calculateRatingTolerance 0 =
      min (ratingTolerance + (0 / minuteNs) * 20) maxRatingTolerance ∧
      calculateRatingTolerance (3 * minuteNs) ≤
        calculateRatingTolerance (10 * minuteNs) ∧
      calculateRatingTolerance (60 * minuteNs) ≤ maxRatingTolerance :=
  ⟨calculateRatingTolerance_props.1 0,
    calculateRatingTolerance_props.2.1 (3 * minuteNs) (10 * minuteNs)
      (by simp only [minuteNs]; omega),
    calculateRatingTolerance_props.2.2 (60 * minuteNs)⟩

/-- C8.  Ratings 1000 and 1300 queued simultaneously: the first sweep does
not pair them (tolerance 100 < 300); in fact no sweep ever pairs them,
because the request payloads expire after 5 minutes, by which time the
older tolerance has reached at most 180 < 300; only a store that never
expired would let an 11-minute sweep (tolerance 320) pair them. -/
theorem matchmaking_1000_1300_never_paired :
    matchPlayers 0 (storeGet mmReqs 0) mmQueue = none ∧
      (∀ now : Nat, matchPlayers now (storeGet mmReqs now) mmQueue = none) ∧
      matchPlayers (11 * minuteNs) (storeGetNoExpiry mmReqs) mmQueue =
        some (1, 2) := by
  refine ⟨by decide, fun now => ?_, by decide⟩
  by_cases h1 : now < matchmakingTimeoutNs
  · have hA : storeGet mmReqs now 1 = some mmReqA := by
      rw [storeGet]
      simp only [mmReqs, mmReqA, mmReqB, List.find?]
      norm_num
      exact fun h2 => absurd h2 (by omega)
    have hB : storeGet mmReqs now 2 = some mmReqB := by
      rw [storeGet]
      simp only [mmReqs, mmReqA, mmReqB, List.find?]
      norm_num
      exact fun h2 => absurd h2 (by omega)
    have hcmp : ¬ ((mmReqA.rating - mmReqB.rating).natAbs ≤
        calculateRatingTolerance (now - mmReqA.joinedAt)) := by
      have habs : ((mmReqA.rating - mmReqB.rating).natAbs) = 300 := by decide
      rw [habs]
      rw [calculateRatingTolerance]
      simp only [mmReqA, ratingTolerance, maxRatingTolerance, minuteNs]
      simp only [matchmakingTimeoutNs] at h1
      have : (now - 0) / 60000000000 ≤ 4 := by omega
      split <;> omega
    simp [mmQueue, matchPlayers, matchInner, hA, hB, hcmp]
  · have hA : storeGet mmReqs now 1 = none := by
      rw [storeGet]
      simp only [mmReqs, mmReqA, mmReqB, List.find?]
      norm_num
      exact fun h2 => absurd h2 h1
    simp [mmQueue, matchPlayers, hA]

/-- Counterexample to C9 as stated: after the buffer of room 100's only
member fills, a room broadcast evicts it from the room without deleting
the room, leaving an empty room in the registry (one eviction occurred). -/
theorem hub_empty_room_persists :
    (hubRun initialHub hubC9Ops).map (fun r => (r.1.rooms, r.2)) =
      some ([(100, [])], 1) := by
  set_option maxRecDepth 10000 in decide

/-- All rooms in the registry have at least one member. -/
def roomsNonempty (s : HubState) : Prop :=
  ∀ r ∈ s.rooms, r.2 ≠ []

/-- The eviction count of the send loop never decreases. -/
lemma sendAll_evs_le (rid : Nat) (cids : List Nat) :
    ∀ (s : HubState) (evs : Nat) (s2 : HubState) (evs2 : Nat),
      sendAll rid cids s evs = some (s2, evs2) → evs ≤ evs2 := by
  induction cids with
  | nil =>
    intro s evs s2 evs2 h
    rw [sendAll] at h
    injection h with h
    injection h with h1 h2
    omega
  | cons cid rest ih =>
    intro s evs s2 evs2 h
    rw [sendAll] at h
    cases hg : hubGetClient s cid with
    | none =>
      rw [hg] at h
      exact ih s evs s2 evs2 h
    | some c =>
      rw [hg] at h
      simp only [] at h
      by_cases hcl : c.closed
      · simp [hcl] at h
      · rw [if_neg hcl] at h
        by_cases hp : c.pending < c.cap
        · rw [if_pos hp] at h
          exact ih _ evs s2 evs2 h
        · rw [if_neg hp] at h
          have := ih _ (evs + 1) s2 evs2 h
          omega

/-- An eviction-free send loop leaves the room registry untouched. -/
lemma sendAll_rooms_eq (rid : Nat) (cids : List Nat) :
    ∀ (s : HubState) (evs : Nat) (s2 : HubState),
      sendAll rid cids s evs = some (s2, evs) → s2.rooms = s.rooms := by
  induction cids with
  | nil =>
    intro s evs s2 h
    rw [sendAll] at h
    injection h with h
    injection h with h1 h2
    rw [← h1]
  | cons cid rest ih =>
    intro s evs s2 h
    rw [sendAll] at h
    cases hg : hubGetClient s cid with
    | none =>
      rw [hg] at h
      exact ih s evs s2 h
    | some c =>
      rw [hg] at h
      simp only [] at h
      by_cases hcl : c.closed
      · simp [hcl] at h
      · rw [if_neg hcl] at h
        by_cases hp : c.pending < c.cap
        · rw [if_pos hp] at h
          have h2 := ih _ evs s2 h
          rw [h2]
        · rw [if_neg hp] at h
          have := sendAll_evs_le rid rest _ (evs + 1) s2 evs h
          omega

/-- An eviction-free room broadcast leaves the room registry untouched. -/
lemma broadcastToRoomH_rooms_eq (s : HubState) (rid : Nat) (s2 : HubState)
    (h : broadcastToRoomH s rid = some (s2, 0)) : s2.rooms = s.rooms := by
  rw [broadcastToRoomH] at h
  cases hg : hubGetRoom s rid with
  | none =>
    rw [hg] at h
    injection h with h
    injection h with h1 h2
    rw [← h1]
  | some members =>
    rw [hg] at h
    exact sendAll_rooms_eq rid members s 0 s2 h

/-- A found room is an entry of the registry. -/
lemma hubGetRoom_mem (s : HubState) (rid : Nat) (members : List Nat)
    (h : hubGetRoom s rid = some members) : (rid, members) ∈ s.rooms := by
  rw [hubGetRoom, Option.map_eq_some'] at h
  obtain ⟨r, hr, hr2⟩ := h
  have hmem := List.mem_of_find?_eq_some hr
  have hpred := List.find?_some hr
  simp only [decide_eq_true_eq] at hpred
  have : r = (rid, members) := by
    obtain ⟨r1, r2⟩ := r
    simp only [] at hpred hr2
    rw [hpred, hr2]
  rw [← this]
  exact hmem

/-- Replacing a room's members with a non-empty list preserves the
invariant. -/
lemma hubSetRoom_nonempty (rooms : List (Nat × List Nat)) (rid : Nat)
    (members : List Nat) (hinv : ∀ r ∈ rooms, r.2 ≠ []) (hm : members ≠ []) :
    ∀ r ∈ hubSetRoom rooms rid members, r.2 ≠ [] := by
  intro r hr
  rw [hubSetRoom, List.mem_map] at hr
  obtain ⟨r0, hr0, hr0e⟩ := hr
  by_cases he : r0.1 = rid
  · rw [if_pos he] at hr0e
    rw [← hr0e]
    exact hm
  · rw [if_neg he] at hr0e
    rw [← hr0e]
    exact hinv r0 hr0
/-- Deleting the updated room entry preserves the invariant regardless of
the new member list. -/
lemma hubDelRoom_setRoom_nonempty (rooms : List (Nat × List Nat))
    (rid : Nat) (members : List Nat) (hinv : ∀ r ∈ rooms, r.2 ≠ []) :
    ∀ r ∈ hubDelRoom (hubSetRoom rooms rid members) rid, r.2 ≠ [] := by
  intro r hr
  rw [hubDelRoom, List.mem_filter] at hr
  obtain ⟨hr1, hr2⟩ := hr
  rw [hubSetRoom, List.mem_map] at hr1
  obtain ⟨r0, hr0, hr0e⟩ := hr1
  simp only [decide_eq_true_eq] at hr2
  by_cases he : r0.1 = rid
  · rw [if_pos he] at hr0e
    rw [← hr0e] at hr2
    simp at hr2
  · rw [if_neg he] at hr0e
    rw [← hr0e]
    exact hinv r0 hr0

/-- An eviction-free `removeClientFromRoom` preserves the invariant: the
room is deleted exactly when its membership emptied at removal time. -/
lemma removeClientFromRoomH_preserves (s : HubState) (cid rid : Nat)
    (s2 : HubState) (h : removeClientFromRoomH s cid rid = some (s2, 0))
    (hinv : roomsNonempty s) : roomsNonempty s2 := by
  rw [removeClientFromRoomH] at h
  cases hg : hubGetRoom s rid with
  | none =>
    rw [hg] at h
    injection h with h
    injection h with h1 h2
    rw [← h1]
    exact hinv
  | some members =>
    rw [hg] at h
    simp only [] at h
    split at h
    · exact Option.noConfusion h
    · rename_i s2x ex heq
      injection h with h
      injection h with h1 h2
      subst h2
      have hrooms := broadcastToRoomH_rooms_eq _ rid s2x heq
      rw [← h1]
      by_cases hemp : (members.erase cid).isEmpty = true
      · rw [if_pos hemp]
        intro r hr
        simp only [] at hr
        rw [hrooms] at hr
        exact hubDelRoom_setRoom_nonempty s.rooms rid (members.erase cid)
          hinv r hr
      · rw [if_neg hemp]
        intro r hr
        rw [hrooms] at hr
        refine hubSetRoom_nonempty s.rooms rid (members.erase cid) hinv ?_ r hr
        intro hnil
        rw [hnil] at hemp
        simp at hemp

/-- An eviction-free `JoinRoom` preserves the invariant. -/
lemma joinRoomH_preserves (s : HubState) (cid rid : Nat) (s2 : HubState)
    (h : joinRoomH s cid rid = some (s2, 0)) (hinv : roomsNonempty s) :
    roomsNonempty s2 := by
  rw [joinRoomH] at h
  cases hc : hubGetClient s cid with
  | none =>
    rw [hc] at h
    injection h with h
    injection h with h1 h2
    rw [← h1]
    exact hinv
  | some c =>
    rw [hc] at h
    simp only [] at h
    have hrooms := broadcastToRoomH_rooms_eq _ rid s2 h
    intro r hr
    rw [hrooms] at hr
    simp only [] at hr
    cases hg : hubGetRoom s rid with
    | none =>
      rw [hg] at hr
      simp only [] at hr
      rw [List.mem_append] at hr
      rcases hr with hr | hr
      · exact hinv r hr
      · rw [List.mem_singleton] at hr
        rw [hr]
        simp
    | some members =>
      rw [hg] at hr
      simp only [] at hr
      have hm : members ≠ [] := hinv (rid, members) (hubGetRoom_mem s rid members hg)
      refine hubSetRoom_nonempty s.rooms rid _ hinv ?_ r hr
      by_cases hmem : cid ∈ members
      · rw [if_pos hmem]
        exact hm
      · rw [if_neg hmem]
        simp

/-- The eviction count of the per-room unregister loop never decreases. -/
lemma removeFromRooms_evs_le (cid : Nat) (rids : List Nat) :
    ∀ (s : HubState) (evs : Nat) (s2 : HubState) (evs2 : Nat),
      removeFromRooms cid rids s evs = some (s2, evs2) → evs ≤ evs2 := by
  induction rids with
  | nil =>
    intro s evs s2 evs2 h
    rw [removeFromRooms] at h
    injection h with h
    injection h with h1 h2
    omega
  | cons rid rest ih =>
    intro s evs s2 evs2 h
    rw [removeFromRooms] at h
    cases hrm : removeClientFromRoomH s cid rid with
    | none =>
      rw [hrm] at h
      exact Option.noConfusion h
    | some p =>
      obtain ⟨s1, e⟩ := p
      rw [hrm] at h
      simp only [] at h
      have := ih s1 (evs + e) s2 evs2 h
      omega

/-- An eviction-free unregister loop preserves the invariant. -/
lemma removeFromRooms_preserves (cid : Nat) (rids : List Nat) :
    ∀ (s : HubState) (evs : Nat) (s2 : HubState),
      removeFromRooms cid rids s evs = some (s2, 0) → roomsNonempty s →
        roomsNonempty s2 := by
  induction rids with
  | nil =>
    intro s evs s2 h hinv
    rw [removeFromRooms] at h
    injection h with h
    injection h with h1 h2
    rw [← h1]
    exact hinv
  | cons rid rest ih =>
    intro s evs s2 h hinv
    rw [removeFromRooms] at h
    cases hrm : removeClientFromRoomH s cid rid with
    | none =>
      rw [hrm] at h
      exact Option.noConfusion h
    | some p =>
      obtain ⟨s1, e⟩ := p
      rw [hrm] at h
      simp only [] at h
      have hle := removeFromRooms_evs_le cid rest s1 (evs + e) s2 0 h
      have he : e = 0 := by omega
      subst he
      exact ih s1 (evs + 0) s2 h
        (removeClientFromRoomH_preserves s cid rid s1 hrm hinv)

/-- An eviction-free `unregisterClient` preserves the invariant. -/
lemma unregisterH_preserves (s : HubState) (cid : Nat) (s2 : HubState)
    (h : unregisterH s cid = some (s2, 0)) (hinv : roomsNonempty s) :
    roomsNonempty s2 := by
  rw [unregisterH] at h
  cases hc : hubGetClient s cid with
  | none =>
    rw [hc] at h
    injection h with h
    injection h with h1 h2
    rw [← h1]
    exact hinv
  | some c =>
    rw [hc] at h
    simp only [] at h
    cases hrm : removeFromRooms cid c.rooms s 0 with
    | none =>
      rw [hrm] at h
      exact Option.noConfusion h
    | some p =>
      obtain ⟨s1, e⟩ := p
      rw [hrm] at h
      simp only [] at h
      injection h with h
      injection h with h1 h2
      subst h2
      rw [← h1]
      intro r hr
      exact removeFromRooms_preserves cid c.rooms s 0 s1 hrm hinv r hr

/-- `registerClient` does not touch the rooms registry. -/
lemma registerH_rooms (s : HubState) (cid uid : Nat) :
    (registerH s cid uid).rooms = s.rooms := by
  simp only [registerH]
  split <;> rfl

/-- One eviction-free hub operation preserves the invariant. -/
lemma hubStep_preserves (s : HubState) (op : HubOp) (s2 : HubState)
    (h : hubStep s op = some (s2, 0)) (hinv : roomsNonempty s) :
    roomsNonempty s2 := by
  cases op with
  | register cid uid =>
    rw [hubStep] at h
    injection h with h
    injection h with h1 h2
    rw [← h1]
    intro r hr
    rw [registerH_rooms] at hr
    exact hinv r hr
  | unregister cid =>
    exact unregisterH_preserves s cid s2 h hinv
  | joinRoom cid rid =>
    exact joinRoomH_preserves s cid rid s2 h hinv
  | leaveRoom cid rid =>
    rw [hubStep, leaveRoomH] at h
    cases hc : hubGetClient s cid with
    | none =>
      rw [hc] at h
      injection h with h
      injection h with h1 h2
      rw [← h1]
      exact hinv
    | some c =>
      rw [hc] at h
      exact removeClientFromRoomH_preserves s cid rid s2 h hinv
  | roomBroadcast rid =>
    rw [hubStep] at h
    have hrooms := broadcastToRoomH_rooms_eq s rid s2 h
    intro r hr
    rw [hrooms] at hr
    exact hinv r hr

/-- An eviction-free history preserves the invariant. -/
lemma hubRun_preserves (ops : List HubOp) :
    ∀ (s s2 : HubState), hubRun s ops = some (s2, 0) → roomsNonempty s →
      roomsNonempty s2 := by
  induction ops with
  | nil =>
    intro s s2 h hinv
    rw [hubRun] at h
    injection h with h
    injection h with h1 h2
    rw [← h1]
    exact hinv
  | cons op rest ih =>
    intro s s2 h hinv
    rw [hubRun] at h
    cases hst : hubStep s op with
    | none =>
      rw [hst] at h
      exact Option.noConfusion h
    | some p =>
      obtain ⟨s1, e⟩ := p
      rw [hst] at h
      simp only [] at h
      cases hrn : hubRun s1 rest with
      | none =>
        rw [hrn] at h
        exact Option.noConfusion h
      | some q =>
        obtain ⟨s2x, e2⟩ := q
        rw [hrn] at h
        simp only [] at h
        injection h with h
        injection h with h1 h2
        have he : e = 0 := by omega
        have he2 : e2 = 0 := by omega
        subst he
        subst he2
        rw [← h1]
        exact ih s1 s2x hrn (hubStep_preserves s op s1 hst hinv)

/-- C9 (amended).  Along any history of register, unregister, join-room,
leave-room and room-broadcast operations in which no session is evicted
for a full outbound buffer, every room in the registry has at least one
member: rooms are destroyed exactly when their last member leaves.
(When such an eviction does occur — the counterexample — the member is
removed from the room without the room being deleted, so an emptied room
survives in the registry.) -/
theorem hub_rooms_nonempty_without_evictions (ops : List HubOp)
    (s : HubState) (h : hubRun initialHub ops = some (s, 0)) :
    ∀ r ∈ s.rooms, r.2 ≠ [] :=
  hubRun_preserves ops initialHub s h
    (fun r hr => absurd hr (by simp [initialHub]))

/-- Witness for the amended C9: a register + join history runs without
evictions and leaves room 100 with its one member. -/
theorem hub_rooms_nonempty_without_evictions_witness :
    hubRun initialHub hubWitnessOps = some (hubWitnessState, 0) ∧
      (100, [1]) ∈ hubWitnessState.rooms ∧
      ((100, ([1] : List Nat)).2 ≠ []) :=
  ⟨by decide, by decide,
    hub_rooms_nonempty_without_evictions hubWitnessOps hubWitnessState
      (by decide) (100, [1]) (by decide)⟩
